import Mathlib

/-!
# Container and ScrollContainer of the widget package

A shallow embedding of `widget/container.go` and `widget/scrollcontainer.go`.

Go pointers are addresses (`Nat`).  A `HasWidget` value is the address of the
object behind the interface; two interface values are `==` exactly when the
addresses agree, which is how `removeChild` compares children.

The part of a program state that never changes after construction (dynamic
types, the `widget` and `layout` fields set by the constructors and options)
is a `World`; the part that `AddChild`, `removeChild` and `Render` write is a
`Heap`.  Calls into collaborators whose code is outside these two files
(`MarkDirty` of a layout, `Render` of a child, ...) are recorded, in order, in
a log of `Call`s.

`Container.RequestRelayout` is recursive over the child lists of the heap,
which may be cyclic (a Container can be added below itself), in which case the
Go recursion never returns.  The embedding therefore carries a recursion
budget and returns `none` when the budget is exhausted.
-/

namespace Ebitenui

/-! ## Data model -/

/-- Dynamic type behind a `HasWidget` interface value: a `*Container`, which has
both `RequestRelayout` and `Render`, or some other widget, described by the two
optional capabilities the Container code asks for by type assertion. -/
inductive Kind
  | container
  | widget (relayoutable renderer : Bool)
deriving DecidableEq, Repr

/-- Type assertion `ch.(Relayoutable)`. -/
def Kind.isRelayoutable : Kind → Bool
  | .container => true
  | .widget r _ => r

/-- Type assertion `ch.(Renderer)`. -/
def Kind.isRenderer : Kind → Bool
  | .container => true
  | .widget _ r => r

/-- Calls that leave the two source files, in the order they are issued. -/
inductive Call
  | markDirty (layout : Nat)
  | requestRelayout (node : Nat)
  | doLayout (layout : Nat) (children : List Nat)
  | widgetRender (widget : Nat)
  | drawBackground (container : Nat)
  | render (node : Nat)
deriving DecidableEq, Repr

/-- Construction-time facts.  `kind` is the dynamic type at an address, `widget`
is `GetWidget()` (the address of the node's `*Widget`), `layout` is the
`layout` field of a Container (`none` for nil), `dirtyable` tells whether the
layout at an address passes the assertion `c.layout.(Dirtyable)`, and
`BackgroundImage` whether that field is non-nil. -/
structure World where
  kind : Nat → Kind
  widget : Nat → Nat
  layout : Nat → Option Nat
  dirtyable : Nat → Bool
  BackgroundImage : Nat → Bool

/-- Mutable state.  `children c` is the slice `c.children`; `parent v` is the
`parent` field of the Widget at address `v` (`none` for nil); `Disabled v` its
`Disabled` field; `AutoDisableChildren c` the public flag of Container `c`. -/
structure Heap where
  children : Nat → List Nat
  parent : Nat → Option Nat
  Disabled : Nat → Bool
  AutoDisableChildren : Nat → Bool
  log : List Call

/-- Assignment to one field cell: `f[k] = v`. -/
def setAt {α : Type} (f : Nat → α) (k : Nat) (v : α) : Nat → α :=
  fun i => if i = k then v else f i

/-- Append the calls issued by an operation to the log of the heap. -/
def logCalls (s : Heap) (t : List Call) : Heap :=
  { s with log := s.log ++ t }

/-- Removal capability returned by `AddChild` (`type RemoveChildFunc func()`):
run against the current heap with a recursion budget. -/
abbrev RemoveChildFunc := Nat → Heap → Option Heap

namespace Container

/-- Sequencing of the per-child calls of a `for _, ch := range c.children` loop
whose body may fail to return. -/
def forChildren (body : Nat → Option (List Call)) : List Nat → Option (List Call)
  | [] => some []
  | ch :: rest =>
    match body ch with
    | none => none
    | some a =>
      match forChildren body rest with
      | none => none
      | some b => some (a ++ b)

/-- The `if c.layout != nil { if d, ok := c.layout.(Dirtyable); ok { d.MarkDirty() } }`
block of `RequestRelayout`. -/
def markOwnLayout (w : World) (c : Nat) : List Call :=
  match w.layout c with
  | none => []
  | some l => if w.dirtyable l then [Call.markDirty l] else []

/-- `func (c *Container) RequestRelayout()`: the calls it issues, or `none` when
the recursion is deeper than `fuel`.  A relayoutable child that is a Container
runs this same method; any other relayoutable child is an outside call. -/
def RequestRelayout (w : World) (s : Heap) : Nat → Nat → Option (List Call)
  | 0, _ => none
  | fuel + 1, c =>
    match forChildren (fun ch =>
        match w.kind ch with
        | .container => RequestRelayout w s fuel ch
        | .widget true _ => some [Call.requestRelayout ch]
        | .widget false _ => some []) (s.children c) with
    | none => none
    | some t => some (markOwnLayout w c ++ t)

/-- The search loop of `removeChild`: `index := -1; for i, ch := range ... { if ch == child { index = i; break } }`,
started at position `i`. -/
def findChild (child : Nat) : List Nat → Nat → Int
  | [], _ => -1
  | ch :: rest, i => if ch = child then (i : Int) else findChild child rest (i + 1)

/-- `func (c *Container) removeChild(child HasWidget)`. -/
def removeChild (w : World) (fuel : Nat) (s : Heap) (c child : Nat) : Option Heap :=
  let index := findChild child (s.children c) 0
  if index < 0 then some s
  else
    let rest := (s.children c).take index.toNat ++ (s.children c).drop (index.toNat + 1)
    let s1 : Heap := { s with children := setAt s.children c rest }
    let s2 : Heap := { s1 with parent := setAt s1.parent (w.widget child) none }
    match RequestRelayout w s2 fuel c with
    | none => none
    | some t => some (logCalls s2 t)

/-- The two assignments of `AddChild`, before its relayout request:
`c.children = append(c.children, child)` and `child.GetWidget().parent = c.widget`. -/
def link (w : World) (s : Heap) (c child : Nat) : Heap :=
  let s1 : Heap := { s with children := setAt s.children c (s.children c ++ [child]) }
  { s1 with parent := setAt s1.parent (w.widget child) (some (w.widget c)) }

/-- `func (c *Container) AddChild(child HasWidget) RemoveChildFunc`. -/
def AddChild (w : World) (fuel : Nat) (s : Heap) (c child : Nat) :
    Option (Heap × RemoveChildFunc) :=
  let s2 := link w s c child
  match RequestRelayout w s2 fuel c with
  | none => none
  | some t => some (logCalls s2 t, fun fuel1 s1 => removeChild w fuel1 s1 c child)

/-- The first loop of `Render`: `ch.GetWidget().Disabled = c.widget.Disabled` for
every child, in order. -/
def disableChildren (w : World) (c : Nat) : List Nat → Heap → Heap
  | [], s => s
  | ch :: rest, s =>
    disableChildren w c rest
      { s with Disabled := setAt s.Disabled (w.widget ch) (s.Disabled (w.widget c)) }

/-- `func (c *Container) doLayout()`. -/
def doLayout (w : World) (s : Heap) (c : Nat) : List Call :=
  match w.layout c with
  | none => []
  | some l => [Call.doLayout l (s.children c)]

/-- `func (c *Container) draw(screen)`. -/
def draw (w : World) (c : Nat) : List Call :=
  if w.BackgroundImage c then [Call.drawBackground c] else []

/-- The last loop of `Render`: `if cr, ok := ch.(Renderer); ok { cr.Render(screen, def) }`. -/
def renderChildren (w : World) : List Nat → List Call
  | [] => []
  | ch :: rest =>
    if (w.kind ch).isRenderer then Call.render ch :: renderChildren w rest
    else renderChildren w rest

/-- `func (c *Container) Render(screen, def)`.  The `Render` of a child is an
interface call: it is recorded, its body is not unfolded. -/
def Render (w : World) (s : Heap) (c : Nat) : Heap :=
  let s1 := if s.AutoDisableChildren c then disableChildren w c (s.children c) s else s
  logCalls s1 (doLayout w s1 c ++ [Call.widgetRender (w.widget c)]
    ++ draw w c ++ renderChildren w (s1.children c))

/-! ### Scenarios and predicates used to state the properties -/

/-- Invoke a removal capability `n` times in a row. -/
def invoke (rm : RemoveChildFunc) (fuel : Nat) : Nat → Heap → Option Heap
  | 0, s => some s
  | n + 1, s =>
    match rm fuel s with
    | none => none
    | some s1 => invoke rm fuel n s1

/-- `rm := c.AddChild(child)` followed by `n` invocations of `rm()`. -/
def addThenInvoke (w : World) (fuel : Nat) (s : Heap) (c child n : Nat) : Option Heap :=
  match AddChild w fuel s c child with
  | none => none
  | some (s1, rm) => invoke rm fuel n s1

/-- `c.AddChild(x)` for every `x` of a list, in order. -/
def addAll (w : World) (fuel : Nat) (c : Nat) : Heap → List Nat → Option Heap
  | s, [] => some s
  | s, x :: xs =>
    match AddChild w fuel s c x with
    | none => none
    | some (s1, _) => addAll w fuel c s1 xs

/-- Every descending path of Container children that starts at `c` has at most
`n` nodes (and hence none runs into a cycle): the recursion of
`RequestRelayout` from `c` is at most `n` calls deep. -/
def depthWithin (w : World) (s : Heap) : Nat → Nat → Bool
  | 0, _ => false
  | n + 1, c => (s.children c).all fun ch =>
      match w.kind ch with
      | .container => depthWithin w s n ch
      | .widget _ _ => true

/-- The relayoutable children of `c`, in list order. -/
def relayoutableChildren (w : World) (s : Heap) (c : Nat) : List Nat :=
  (s.children c).filter fun ch => (w.kind ch).isRelayoutable

/-- A chain of relayoutable descendants below Container `c`: `c` has exactly one
relayoutable child, the Container `d`, which has exactly one relayoutable
child, and so on down to a Container without relayoutable children. -/
def IsChain (w : World) (s : Heap) : Nat → List Nat → Prop
  | c, [] => w.kind c = Kind.container ∧ relayoutableChildren w s c = []
  | c, d :: ds =>
    w.kind c = Kind.container ∧ relayoutableChildren w s c = [d] ∧ IsChain w s d ds

/-- The `MarkDirty` calls of the Containers of a list, one Container after the
other. -/
def chainMarks (w : World) : List Nat → List Call
  | [] => []
  | c :: cs => markOwnLayout w c ++ chainMarks w cs

/-- No two Containers of the list were built with the same layout object. -/
def DistinctLayouts (w : World) (cs : List Nat) : Prop :=
  ∀ k1 ∈ cs, ∀ k2 ∈ cs, ∀ l, w.layout k1 = some l → w.layout k2 = some l → k1 = k2

/-- States reached from empty Containers by `AddChild` and `removeChild` calls
that returned; `guard s c x` restricts the `AddChild` calls that are made. -/
inductive Reachable (w : World) (guard : Heap → Nat → Nat → Prop) : Heap → Prop
  | init (s : Heap) (hc : ∀ c, s.children c = []) (hp : ∀ v, s.parent v = none) :
      Reachable w guard s
  | add (fuel c x : Nat) (s s1 : Heap) (rm : RemoveChildFunc) (h : Reachable w guard s)
      (hk : w.kind c = Kind.container) (hg : guard s c x)
      (hs : AddChild w fuel s c x = some (s1, rm)) : Reachable w guard s1
  | remove (fuel c x : Nat) (s s1 : Heap) (h : Reachable w guard s)
      (hk : w.kind c = Kind.container)
      (hs : removeChild w fuel s c x = some s1) : Reachable w guard s1

/-- Parent back-references agree with the child lists, and no node is in the
child list of two Containers. -/
def Consistent (w : World) (s : Heap) : Prop :=
  ∀ x c, (s.parent (w.widget x) = some (w.widget c) ↔ x ∈ s.children c) ∧
    (x ∈ s.children c → ∀ c1, x ∈ s.children c1 → c1 = c)

/-- The heap `removeChild` leaves when the child is present, before its relayout
request, written with `List.erase`: the first occurrence of `child` is erased
and the parent back-reference is nil. -/
def unlink (w : World) (s : Heap) (c child : Nat) : Heap :=
  let s1 : Heap := { s with children := setAt s.children c ((s.children c).erase child) }
  { s1 with parent := setAt s1.parent (w.widget child) none }

/-- Example world: addresses 0, 1, 2 are Containers with the dirtyable layouts
10, 11, 12; 3 is a relayoutable widget with a render capability; 4 a widget with
a render capability only; every other address a widget with neither.  The
Widget of node `n` lives at address `n + 100`. -/
def exWorld : World :=
  { kind := fun n =>
      if n < 3 then Kind.container
      else if n = 3 then Kind.widget true true
      else if n = 4 then Kind.widget false true
      else Kind.widget false false
    widget := fun n => n + 100
    layout := fun n => if n < 3 then some (n + 10) else none
    dirtyable := fun _ => true
    BackgroundImage := fun _ => false }

/-- Example world in which every Container was built with the same layout object 7. -/
def sharedWorld : World :=
  { exWorld with layout := fun n => if n < 3 then some 7 else none }

/-- Heap of freshly constructed nodes: no children, no parents. -/
def emptyHeap : Heap :=
  { children := fun _ => []
    parent := fun _ => none
    Disabled := fun _ => false
    AutoDisableChildren := fun _ => false
    log := [] }

/-- Example heap: Container 0 holds Container 1 and the plain widget 4,
Container 1 holds Container 2. -/
def chainHeap (w : World) : Heap :=
  link w (link w (link w emptyHeap 0 1) 0 4) 1 2

/-- The node of a `Render` call on a child, `none` for any other call. -/
def renderedNode : Call → Option Nat
  | .render n => some n
  | _ => none

end Container

/-! ## ScrollContainer

Go `int` is modelled as the 64-bit two's complement integer: every integer
addition and subtraction of `scrollcontainer.go` and of the `image` package is
followed by `wrapInt`.  A finite `float64` is the rational number it denotes;
the conversion `float64(n)` and the product of two `float64` values round to
the nearest `float64`, ties to even (`roundToFloat64`), as IEEE 754 prescribes.
NaN, the infinities and the sign of zero are outside the model, as is the
conversion to `int` of a value beyond the `int` range, whose result Go leaves
to the implementation. -/

/-- Two's complement wrap-around of Go `int` arithmetic on a 64-bit platform. -/
def wrapInt (x : Int) : Int := (x + 2 ^ 63) % 2 ^ 64 - 2 ^ 63

/-- Round to the nearest integer, ties to the even one. -/
def roundHalfEven (y : ℚ) : Int :=
  if y - ⌊y⌋ < 1 / 2 then ⌊y⌋
  else if 1 / 2 < y - ⌊y⌋ then ⌊y⌋ + 1
  else if ⌊y⌋ % 2 = 0 then ⌊y⌋ else ⌊y⌋ + 1

/-- The `float64` values next to `x` are the multiples of `2 ^ (-quantumExp x)`:
a 53-bit significand below the binary exponent of `x`, and the fixed spacing
`2 ^ (-1074)` in the subnormal range. -/
def quantumExp (x : ℚ) : Int := 52 - max (Int.log 2 |x|) (-1022)

/-- The `float64` nearest to the rational `x`, ties to even: the result of a
`float64` operation whose exact result is `x`. -/
def roundToFloat64 (x : ℚ) : ℚ :=
  if x = 0 then 0
  else (roundHalfEven (x * (2 : ℚ) ^ quantumExp x) : ℚ) / (2 : ℚ) ^ quantumExp x

/-- Go `image.Point`. -/
structure Point where
  X : Int
  Y : Int
deriving DecidableEq, Repr

/-- Go `image.Rectangle`. -/
structure Rectangle where
  Min : Point
  Max : Point
deriving DecidableEq, Repr

/-- Go `image.Rect`: the corners are swapped where needed so that `Min ≤ Max`. -/
def Rect (x0 y0 x1 y1 : Int) : Rectangle :=
  { Min := ⟨if x0 > x1 then x1 else x0, if y0 > y1 then y1 else y0⟩
    Max := ⟨if x0 > x1 then x0 else x1, if y0 > y1 then y0 else y1⟩ }

/-- Go `Rectangle.Add`. -/
def Rectangle.Add (r : Rectangle) (p : Point) : Rectangle :=
  { Min := ⟨wrapInt (r.Min.X + p.X), wrapInt (r.Min.Y + p.Y)⟩
    Max := ⟨wrapInt (r.Max.X + p.X), wrapInt (r.Max.Y + p.Y)⟩ }

/-- Go `Rectangle.Sub`. -/
def Rectangle.Sub (r : Rectangle) (p : Point) : Rectangle :=
  { Min := ⟨wrapInt (r.Min.X - p.X), wrapInt (r.Min.Y - p.Y)⟩
    Max := ⟨wrapInt (r.Max.X - p.X), wrapInt (r.Max.Y - p.Y)⟩ }

/-- Go `Rectangle.Dx`. -/
def Rectangle.Dx (r : Rectangle) : Int := wrapInt (r.Max.X - r.Min.X)

/-- Go `Rectangle.Dy`. -/
def Rectangle.Dy (r : Rectangle) : Int := wrapInt (r.Max.Y - r.Min.Y)

/-- The `Insets` struct of the widget package. -/
structure Insets where
  Top : Int
  Left : Int
  Right : Int
  Bottom : Int
deriving DecidableEq, Repr

/-- Modelled from the spec: `Insets.Apply` is not among the source files; the
spec describes its result as the rectangle "after padding is subtracted": the
left and top insets move `Min` inwards, the right and bottom insets move `Max`
inwards. -/
def Insets.Apply (i : Insets) (rect : Rectangle) : Rectangle :=
  { Min := ⟨wrapInt (rect.Min.X + i.Left), wrapInt (rect.Min.Y + i.Top)⟩
    Max := ⟨wrapInt (rect.Max.X - i.Right), wrapInt (rect.Max.Y - i.Bottom)⟩ }

/-- Modelled from the spec: `Insets.Dx` is not among the source files; it is the
total horizontal padding. -/
def Insets.Dx (i : Insets) : Int := wrapInt (i.Left + i.Right)

/-- Modelled from the spec: `Insets.Dy` is not among the source files; it is the
total vertical padding. -/
def Insets.Dy (i : Insets) : Int := wrapInt (i.Top + i.Bottom)

/-- `int(math.Round(x))`: the nearest integer, halves rounded away from zero. -/
def goRound (x : ℚ) : Int :=
  if 0 ≤ x then ⌊x + 1 / 2⌋ else -⌊-x + 1 / 2⌋

/-- `type ScrollContainerImage struct`: which of the three images are non-nil. -/
structure ScrollContainerImage where
  Idle : Bool
  Disabled : Bool
  Mask : Bool
deriving DecidableEq, Repr

/-- What `renderContent` asks of the value in the `content` field: the type
assertions to `Renderer`, `Locateable` and `Relayoutable`, and the result of
`PreferredSize()` when the value is a `PreferredSizer`. -/
structure Content where
  isRenderer : Bool
  isLocateable : Bool
  isRelayoutable : Bool
  preferredSize : Option (Int × Int)
deriving DecidableEq, Repr

/-- `type ScrollContainer struct`, with the `Rect` and `Disabled` fields of its
Widget; the `image` field is taken to be non-nil. -/
structure ScrollContainer where
  ScrollLeft : ℚ
  ScrollTop : ℚ
  image : ScrollContainerImage
  content : Option Content
  padding : Insets
  stretchContentWidth : Bool
  widgetRect : Rectangle
  widgetDisabled : Bool

/-- Calls a ScrollContainer issues during `Render`, in order. -/
inductive ScrollCall
  | widgetRender
  | drawImage (disabledImage : Bool) (width height : Int) (dimmed : Bool)
  | setLocation (rect : Rectangle)
  | requestRelayout
  | render
  | drawMask (width height x y : Int)
  | composite
deriving DecidableEq, Repr

/-- The two screen axes. -/
inductive Axis
  | horizontal
  | vertical
deriving DecidableEq, Repr

/-- The coordinate of a point on an axis. -/
def Point.coord (p : Point) : Axis → Int
  | .horizontal => p.X
  | .vertical => p.Y

/-- The component of a size pair on an axis. -/
def sizeAlong (sz : Int × Int) : Axis → Int
  | .horizontal => sz.1
  | .vertical => sz.2

/-- `Dx` or `Dy`. -/
def Rectangle.extent (r : Rectangle) : Axis → Int
  | .horizontal => r.Dx
  | .vertical => r.Dy

/-- A pixel quantity of at most `2 ^ 24` in absolute value. -/
def Within (x : Int) : Prop := -2 ^ 24 ≤ x ∧ x ≤ 2 ^ 24

namespace ScrollContainer

/-- `func (s *ScrollContainer) clampScroll()`. -/
def clampScroll (s : ScrollContainer) : ScrollContainer :=
  let top := if s.ScrollTop < 0 then 0 else if s.ScrollTop > 1 then 1 else s.ScrollTop
  let left := if s.ScrollLeft < 0 then 0 else if s.ScrollLeft > 1 then 1 else s.ScrollLeft
  { s with ScrollTop := top, ScrollLeft := left }

/-- `func (s *ScrollContainer) ContentRect() img.Rectangle`. -/
def ContentRect (s : ScrollContainer) : Rectangle :=
  s.padding.Apply s.widgetRect

/-- `func (s *ScrollContainer) draw(screen)`. -/
def draw (s : ScrollContainer) : List ScrollCall :=
  let useDisabled := s.widgetDisabled && s.image.Disabled
  let present := if useDisabled then true else s.image.Idle
  if present then
    [ScrollCall.drawImage useDisabled s.widgetRect.Dx s.widgetRect.Dy
      (s.widgetDisabled && !s.image.Disabled)]
  else []

/-- The size `cw, ch` that `renderContent` gives the content: its preferred size
or 50 by 50, the width raised to the viewport width under `stretchContentWidth`. -/
def contentSize (s : ScrollContainer) (ct : Content) : Int × Int :=
  let sz : Int × Int :=
    match ct.preferredSize with
    | some p => p
    | none => (50, 50)
  let crect := ContentRect s
  let cw := if s.stretchContentWidth then (if sz.1 < crect.Dx then crect.Dx else sz.1) else sz.1
  (cw, sz.2)

/-- One coordinate of the point subtracted in `renderContent`:
`int(math.Round(float64(content - viewport) * fraction))`, with the integer
subtraction, the conversion to `float64` and the `float64` product each
rounded as Go does. -/
def scrollOffset (content viewport : Int) (fraction : ℚ) : Int :=
  goRound (roundToFloat64 (roundToFloat64 (wrapInt (content - viewport) : Int) * fraction))

/-- The rectangle `renderContent` passes to `SetLocation`. -/
def contentLocation (s : ScrollContainer) (ct : Content) : Rectangle :=
  let sz := contentSize s ct
  let crect := ContentRect s
  let rect := Rect 0 0 sz.1 sz.2
  let rect := rect.Add s.widgetRect.Min
  let rect := rect.Add ⟨s.padding.Left, s.padding.Top⟩
  rect.Sub ⟨scrollOffset sz.1 crect.Dx s.ScrollLeft, scrollOffset sz.2 crect.Dy s.ScrollTop⟩

/-- `func (s *ScrollContainer) renderContent(screen, def)`. -/
def renderContent (s : ScrollContainer) : List ScrollCall :=
  match s.content with
  | none => []
  | some ct =>
    if !ct.isRenderer then []
    else
      let located :=
        if ct.isLocateable then
          ScrollCall.setLocation (contentLocation s ct) ::
            (if ct.isRelayoutable then [ScrollCall.requestRelayout] else [])
        else []
      located ++ [ScrollCall.render,
        ScrollCall.drawMask (wrapInt (s.widgetRect.Dx - s.padding.Dx))
          (wrapInt (s.widgetRect.Dy - s.padding.Dy))
          (wrapInt (s.widgetRect.Min.X + s.padding.Left))
          (wrapInt (s.widgetRect.Min.Y + s.padding.Top)),
        ScrollCall.composite]

/-- `func (s *ScrollContainer) Render(screen, def)`: the ScrollContainer after the
call and the calls issued. -/
def Render (s : ScrollContainer) : ScrollContainer × List ScrollCall :=
  let s1 := clampScroll s
  (s1, [ScrollCall.widgetRender] ++ draw s1 ++ renderContent s1)

/-- The scroll fraction of an axis: `ScrollLeft` or `ScrollTop`. -/
def fraction (s : ScrollContainer) : Axis → ℚ
  | .horizontal => s.ScrollLeft
  | .vertical => s.ScrollTop

/-- Assign the scroll fraction of an axis. -/
def setFraction (s : ScrollContainer) (a : Axis) (f : ℚ) : ScrollContainer :=
  match a with
  | .horizontal => { s with ScrollLeft := f }
  | .vertical => { s with ScrollTop := f }

/-- Pixel magnitudes: the coordinates of the Widget rectangle, the four padding
insets and the preferred size of the content are at most `2 ^ 24` in absolute
value, so that no integer operation of `renderContent` wraps, with a 64-bit
`int` as well as with a 32-bit one, and the conversion
`float64(cw - crect.Dx())` is exact. -/
def InRange (s : ScrollContainer) (ct : Content) : Prop :=
  (Within s.widgetRect.Min.X ∧ Within s.widgetRect.Min.Y ∧
    Within s.widgetRect.Max.X ∧ Within s.widgetRect.Max.Y) ∧
  (Within s.padding.Top ∧ Within s.padding.Left ∧
    Within s.padding.Right ∧ Within s.padding.Bottom) ∧
  (∀ p, ct.preferredSize = some p → Within p.1 ∧ Within p.2)

/-- Example: no padding, a 100 by 100 widget rectangle at the origin, and a
content without `PreferredSizer`, hence 50 by 50; both fractions are 1. -/
def smallContent : ScrollContainer :=
  { ScrollLeft := 1
    ScrollTop := 1
    image := ⟨true, false, true⟩
    content := some ⟨true, true, false, none⟩
    padding := ⟨0, 0, 0, 0⟩
    stretchContentWidth := false
    widgetRect := ⟨⟨0, 0⟩, ⟨100, 100⟩⟩
    widgetDisabled := false }

/-- Example: padding 5 on every side, a widget rectangle from (10, 20) to
(110, 80), a content of preferred size 301 by 60, fractions out of range. -/
def wideContent : ScrollContainer :=
  { ScrollLeft := 5 / 2
    ScrollTop := -3 / 2
    image := ⟨true, false, true⟩
    content := some ⟨true, true, true, some (301, 60)⟩
    padding := ⟨5, 5, 5, 5⟩
    stretchContentWidth := false
    widgetRect := ⟨⟨10, 20⟩, ⟨110, 80⟩⟩
    widgetDisabled := false }

/-- Example: no padding, an empty widget rectangle at the origin, a content of
preferred width `2 ^ 53 + 1`, which is not a `float64`, and `ScrollLeft` 1. -/
def hugeContent : ScrollContainer :=
  { ScrollLeft := 1
    ScrollTop := 0
    image := ⟨true, false, true⟩
    content := some ⟨true, true, false, some (9007199254740993, 60)⟩
    padding := ⟨0, 0, 0, 0⟩
    stretchContentWidth := false
    widgetRect := ⟨⟨0, 0⟩, ⟨0, 0⟩⟩
    widgetDisabled := false }

/-- Example: the content of `smallContent` made 95 wide, with `ScrollLeft` the
`float64` nearest to 0.7. -/
def nearHalfContent : ScrollContainer :=
  { smallContent with
    ScrollLeft := 3152519739159347 / 4503599627370496
    content := some ⟨true, true, false, some (95, 50)⟩ }

end ScrollContainer

/-! ## Lemmas on the Container operations -/

namespace Container

theorem findChild_eq (child : Nat) (l : List Nat) (i : Nat) :
    findChild child l i = if child ∈ l then ((i + l.indexOf child : Nat) : Int) else -1 := by
  induction l generalizing i with
  | nil => simp [findChild]
  | cons a l ih =>
    by_cases h : a = child
    · subst h
      simp [findChild]
    · have h1 : ¬ child = a := fun e => h e.symm
      simp only [findChild, h, if_false, ih, List.mem_cons, h1, false_or]
      by_cases hm : child ∈ l
      · simp only [hm, if_true]
        rw [List.indexOf_cons_ne _ h]
        congr 1
        omega
      · simp [hm]

theorem findChild_neg_iff (child : Nat) (l : List Nat) :
    findChild child l 0 < 0 ↔ child ∉ l := by
  rw [findChild_eq]
  by_cases hm : child ∈ l
  · simp only [hm, if_true, not_true_eq_false, iff_false, not_lt]
    exact Int.ofNat_nonneg _
  · simp [hm]

theorem cut_eq_erase (child : Nat) (l : List Nat) (hm : child ∈ l) :
    l.take (findChild child l 0).toNat ++ l.drop ((findChild child l 0).toNat + 1)
      = l.erase child := by
  rw [findChild_eq]
  simp only [hm, if_true, Nat.zero_add, Int.toNat_ofNat]
  rw [← List.eraseIdx_eq_take_drop_succ, List.eraseIdx_indexOf_eq_erase]

theorem forChildren_isSome (f : Nat → Option (List Call)) (l : List Nat) :
    (forChildren f l).isSome = l.all fun ch => (f ch).isSome := by
  induction l with
  | nil => rfl
  | cons a l ih =>
    simp only [forChildren, List.all_cons]
    cases hfa : f a with
    | none => simp
    | some x =>
      rw [← ih]
      cases hr : forChildren f l <;> simp

/-- `RequestRelayout` returns exactly when the depth below `c` is within the budget. -/
theorem RequestRelayout_isSome (w : World) (s : Heap) (fuel c : Nat) :
    (RequestRelayout w s fuel c).isSome = depthWithin w s fuel c := by
  induction fuel generalizing c with
  | zero => rfl
  | succ n ih =>
    have hb : (forChildren (fun ch =>
        match w.kind ch with
        | .container => RequestRelayout w s n ch
        | .widget true _ => some [Call.requestRelayout ch]
        | .widget false _ => some []) (s.children c)).isSome
      = (s.children c).all fun ch =>
        match w.kind ch with
        | .container => depthWithin w s n ch
        | .widget _ _ => true := by
      rw [forChildren_isSome]
      congr 1
      funext ch
      cases hk : w.kind ch with
      | container => exact ih ch
      | widget r d => cases r <;> rfl
    simp only [RequestRelayout, depthWithin]
    rw [← hb]
    cases forChildren (fun ch =>
        match w.kind ch with
        | .container => RequestRelayout w s n ch
        | .widget true _ => some [Call.requestRelayout ch]
        | .widget false _ => some []) (s.children c) <;> rfl

theorem RequestRelayout_returns (w : World) (s : Heap) (fuel c : Nat)
    (h : depthWithin w s fuel c = true) : ∃ t, RequestRelayout w s fuel c = some t := by
  rw [← RequestRelayout_isSome] at h
  exact Option.isSome_iff_exists.mp h

/-- Shrinking child lists keeps the depth within the budget. -/
theorem depthWithin_mono (w : World) (s s1 : Heap)
    (hsub : ∀ k x, x ∈ s1.children k → x ∈ s.children k) (n c : Nat)
    (h : depthWithin w s n c = true) : depthWithin w s1 n c = true := by
  induction n generalizing c with
  | zero => simp [depthWithin] at h
  | succ n ih =>
    simp only [depthWithin, List.all_eq_true] at h ⊢
    intro ch hch
    have h1 := h ch (hsub c ch hch)
    cases hk : w.kind ch with
    | container =>
      rw [hk] at h1
      exact ih ch h1
    | widget r d => rfl

theorem removeChild_absent (w : World) (fuel : Nat) (s : Heap) (c child : Nat)
    (h : child ∉ s.children c) : removeChild w fuel s c child = some s := by
  have hneg : findChild child (s.children c) 0 < 0 := (findChild_neg_iff _ _).mpr h
  simp only [removeChild, hneg, if_true]

/-- When the child is present, `removeChild` erases its first occurrence, clears
its parent and requests a relayout. -/
theorem removeChild_present (w : World) (fuel : Nat) (s : Heap) (c child : Nat)
    (h : child ∈ s.children c) :
    removeChild w fuel s c child =
      (RequestRelayout w (unlink w s c child) fuel c).map
        fun t => logCalls (unlink w s c child) t := by
  have hneg : ¬ findChild child (s.children c) 0 < 0 := by
    rw [findChild_neg_iff]
    exact fun hn => hn h
  simp only [removeChild, hneg, if_false, cut_eq_erase child _ h]
  unfold unlink
  cases RequestRelayout w _ fuel c <;> rfl

theorem AddChild_eq (w : World) (fuel : Nat) (s : Heap) (c child : Nat) (t : List Call)
    (h : RequestRelayout w (link w s c child) fuel c = some t) :
    AddChild w fuel s c child =
      some (logCalls (link w s c child) t,
        fun fuel1 s1 => removeChild w fuel1 s1 c child) := by
  simp only [AddChild, h]

theorem link_children_self (w : World) (s : Heap) (c child : Nat) :
    (link w s c child).children c = s.children c ++ [child] := by
  simp [link, setAt]

theorem link_children_other (w : World) (s : Heap) (c child k : Nat) (h : k ≠ c) :
    (link w s c child).children k = s.children k := by
  simp [link, setAt, h]

theorem unlink_children_self (w : World) (s : Heap) (c child : Nat) :
    (unlink w s c child).children c = (s.children c).erase child := by
  simp [unlink, setAt]

theorem unlink_children_other (w : World) (s : Heap) (c child k : Nat) (h : k ≠ c) :
    (unlink w s c child).children k = s.children k := by
  simp [unlink, setAt, h]

theorem unlink_children_subset (w : World) (s : Heap) (c child k x : Nat)
    (h : x ∈ (unlink w s c child).children k) : x ∈ s.children k := by
  by_cases hk : k = c
  · subst hk
    rw [unlink_children_self] at h
    exact List.mem_of_mem_erase h
  · rwa [unlink_children_other w s c child k hk] at h

/-- Adding a child not yet in the list and removing it again gives back the
child lists that were there before. -/
theorem unlink_link_children (w : World) (s s1 : Heap) (c x : Nat) (hx : x ∉ s.children c)
    (hs : s1.children = (link w s c x).children) :
    (unlink w s1 c x).children = s.children := by
  funext k
  by_cases hk : k = c
  · subst hk
    rw [unlink_children_self, hs, link_children_self, List.erase_append_right _ hx]
    simp
  · rw [unlink_children_other w s1 c x k hk, hs, link_children_other w s c x k hk]

/-- The removal step of the add-then-remove scenarios: on any heap whose child
lists are those left by `AddChild`, the capability returns and produces the
unlinked heap with the relayout calls appended. -/
theorem remove_after_link (w : World) (fuel : Nat) (s s1 : Heap) (c x : Nat)
    (hd : depthWithin w (link w s c x) fuel c = true)
    (hs : s1.children = (link w s c x).children) :
    ∃ t, removeChild w fuel s1 c x = some (logCalls (unlink w s1 c x) t) := by
  have hmem : x ∈ s1.children c := by
    rw [hs, link_children_self]
    simp
  have hd1 : depthWithin w (unlink w s1 c x) fuel c = true := by
    apply depthWithin_mono w (link w s c x) _ _ fuel c hd
    intro k y hy
    rw [← hs]
    exact unlink_children_subset w s1 c x k y hy
  obtain ⟨t, ht⟩ := RequestRelayout_returns w _ fuel c hd1
  exact ⟨t, by rw [removeChild_present w fuel s1 c x hmem, ht]; rfl⟩

theorem AddChild_result (w : World) (fuel : Nat) (s s1 : Heap) (c x : Nat)
    (rm : RemoveChildFunc) (h : AddChild w fuel s c x = some (s1, rm)) :
    s1.children = (link w s c x).children ∧ s1.parent = (link w s c x).parent := by
  unfold AddChild at h
  cases ht : RequestRelayout w (link w s c x) fuel c with
  | none => simp [ht] at h
  | some t =>
    simp only [ht, Option.some.injEq, Prod.mk.injEq] at h
    rw [← h.1]
    exact ⟨rfl, rfl⟩

theorem removeChild_result (w : World) (fuel : Nat) (s s1 : Heap) (c x : Nat)
    (h : removeChild w fuel s c x = some s1) :
    (x ∉ s.children c ∧ s1 = s) ∨
    (x ∈ s.children c ∧ s1.children = (unlink w s c x).children ∧
      s1.parent = (unlink w s c x).parent) := by
  by_cases hm : x ∈ s.children c
  · right
    rw [removeChild_present w fuel s c x hm] at h
    cases ht : RequestRelayout w (unlink w s c x) fuel c with
    | none => simp [ht] at h
    | some t =>
      simp only [ht, Option.map_some', Option.some.injEq] at h
      rw [← h]
      exact ⟨hm, rfl, rfl⟩
  · left
    rw [removeChild_absent w fuel s c x hm] at h
    exact ⟨hm, (Option.some.inj h).symm⟩

theorem mem_link_children (w : World) (s : Heap) (c x k y : Nat) :
    y ∈ (link w s c x).children k ↔ y ∈ s.children k ∨ (k = c ∧ y = x) := by
  by_cases hk : k = c
  · subst hk
    rw [link_children_self]
    simp
  · rw [link_children_other w s c x k hk]
    simp [hk]

theorem mem_unlink_children (w : World) (s : Heap) (c x k y : Nat)
    (hnd : (s.children c).Nodup) :
    y ∈ (unlink w s c x).children k ↔ y ∈ s.children k ∧ ¬ (k = c ∧ y = x) := by
  by_cases hk : k = c
  · subst hk
    rw [unlink_children_self, hnd.mem_erase_iff]
    simp only [true_and]
    exact And.comm
  · rw [unlink_children_other w s c x k hk]
    simp [hk]

theorem link_parent (w : World) (s : Heap) (c x v : Nat) :
    (link w s c x).parent v = if v = w.widget x then some (w.widget c) else s.parent v := rfl

theorem unlink_parent (w : World) (s : Heap) (c x v : Nat) :
    (unlink w s c x).parent v = if v = w.widget x then none else s.parent v := rfl

/-- Adding a child that is in no child list keeps every child list free of
repetitions. -/
theorem nodup_link (w : World) (s : Heap) (c x : Nat) (hx : x ∉ s.children c)
    (hnd : ∀ k, (s.children k).Nodup) (k : Nat) : ((link w s c x).children k).Nodup := by
  by_cases hk : k = c
  · subst hk
    rw [link_children_self]
    exact List.Nodup.append (hnd k) (List.nodup_singleton x) (by simpa using hx)
  · rw [link_children_other w s c x k hk]
    exact hnd k

theorem nodup_unlink (w : World) (s : Heap) (c x : Nat)
    (hnd : ∀ k, (s.children k).Nodup) (k : Nat) : ((unlink w s c x).children k).Nodup := by
  by_cases hk : k = c
  · subst hk
    rw [unlink_children_self]
    exact (hnd k).erase x
  · rw [unlink_children_other w s c x k hk]
    exact hnd k

/-- `AddChild` of a parentless child keeps back-references and child lists in
agreement. -/
theorem consistent_link (w : World) (hinj : Function.Injective w.widget) (s : Heap)
    (c x : Nat) (hcons : Consistent w s) (hg : s.parent (w.widget x) = none) :
    Consistent w (link w s c x) := by
  have hxnot : ∀ k, x ∉ s.children k := by
    intro k hk
    have := ((hcons x k).1).mpr hk
    rw [hg] at this
    exact Option.noConfusion this
  intro y k
  by_cases hy : y = x
  · subst hy
    have hmem : ∀ k1, y ∈ (link w s c y).children k1 ↔ k1 = c := by
      intro k1
      rw [mem_link_children]
      constructor
      · rintro (h | h)
        · exact absurd h (hxnot k1)
        · exact h.1
      · intro h
        exact Or.inr ⟨h, rfl⟩
    refine ⟨?_, ?_⟩
    · rw [hmem, link_parent, if_pos rfl]
      constructor
      · intro h
        exact (hinj (Option.some.inj h)).symm
      · intro h
        rw [h]
    · intro h c1 h1
      rw [(hmem k).mp h, (hmem c1).mp h1]
  · have hwy : w.widget y ≠ w.widget x := fun e => hy (hinj e)
    have hmem : ∀ k1, y ∈ (link w s c x).children k1 ↔ y ∈ s.children k1 := by
      intro k1
      rw [mem_link_children]
      constructor
      · rintro (h | h)
        · exact h
        · exact absurd h.2 hy
      · exact Or.inl
    refine ⟨?_, ?_⟩
    · rw [hmem, link_parent, if_neg hwy]
      exact (hcons y k).1
    · intro h c1 h1
      exact (hcons y k).2 ((hmem k).mp h) c1 ((hmem c1).mp h1)

/-- `removeChild` of a present child keeps back-references and child lists in
agreement, provided the child lists are free of repetitions. -/
theorem consistent_unlink (w : World) (hinj : Function.Injective w.widget) (s : Heap)
    (c x : Nat) (hcons : Consistent w s) (hnd : ∀ k, (s.children k).Nodup)
    (hm : x ∈ s.children c) : Consistent w (unlink w s c x) := by
  intro y k
  by_cases hy : y = x
  · subst hy
    have hmem : ∀ k1, y ∉ (unlink w s c y).children k1 := by
      intro k1
      rw [mem_unlink_children w s c y k1 y (hnd c)]
      rintro ⟨h1, h2⟩
      exact h2 ⟨(hcons y c).2 hm k1 h1, rfl⟩
    refine ⟨?_, ?_⟩
    · rw [unlink_parent, if_pos rfl]
      constructor
      · intro h
        exact Option.noConfusion h
      · intro h
        exact absurd h (hmem k)
    · intro h
      exact absurd h (hmem k)
  · have hwy : w.widget y ≠ w.widget x := fun e => hy (hinj e)
    have hmem : ∀ k1, y ∈ (unlink w s c x).children k1 ↔ y ∈ s.children k1 := by
      intro k1
      rw [mem_unlink_children w s c x k1 y (hnd c)]
      constructor
      · exact fun h => h.1
      · exact fun h => ⟨h, fun h2 => hy h2.2⟩
    refine ⟨?_, ?_⟩
    · rw [hmem, unlink_parent, if_neg hwy]
      exact (hcons y k).1
    · intro h c1 h1
      exact (hcons y k).2 ((hmem k).mp h) c1 ((hmem c1).mp h1)

theorem consistent_congr (w : World) (s s1 : Heap) (hc : s1.children = s.children)
    (hp : s1.parent = s.parent) (h : Consistent w s) : Consistent w s1 := by
  intro y k
  rw [hc, hp]
  exact h y k

/-- Invariant of the states reached when `AddChild` is only given parentless
children: consistency together with repetition-free child lists. -/
theorem reachable_parentless_inv (w : World) (hinj : Function.Injective w.widget) (s : Heap)
    (h : Reachable w (fun s0 _ x => s0.parent (w.widget x) = none) s) :
    Consistent w s ∧ ∀ k, (s.children k).Nodup := by
  induction h with
  | init s hc hp =>
    refine ⟨?_, ?_⟩
    · intro y k
      rw [hc, hp]
      simp
    · intro k
      rw [hc]
      exact List.nodup_nil
  | add fuel c x s s1 rm _ hk hg hs ih =>
    obtain ⟨hc1, hp1⟩ := AddChild_result w fuel s s1 c x rm hs
    have hxc : x ∉ s.children c := by
      intro hmem
      have := ((ih.1 x c).1).mpr hmem
      rw [hg] at this
      exact Option.noConfusion this
    refine ⟨consistent_congr w _ s1 hc1 hp1 (consistent_link w hinj s c x ih.1 hg), ?_⟩
    intro k
    rw [hc1]
    exact nodup_link w s c x hxc ih.2 k
  | remove fuel c x s s1 _ hk hs ih =>
    rcases removeChild_result w fuel s s1 c x hs with ⟨_, he⟩ | ⟨hm, hc1, hp1⟩
    · rw [he]
      exact ih
    · refine ⟨consistent_congr w _ s1 hc1 hp1 (consistent_unlink w hinj s c x ih.1 ih.2 hm), ?_⟩
      intro k
      rw [hc1]
      exact nodup_unlink w s c x ih.2 k

/-- Once a Container is in its own child list, its relayout recursion exceeds
every budget. -/
theorem RequestRelayout_self_child (w : World) (s : Heap) (c : Nat) (rest : List Nat)
    (hk : w.kind c = Kind.container) (hc : s.children c = c :: rest) (fuel : Nat) :
    RequestRelayout w s fuel c = none := by
  induction fuel with
  | zero => rfl
  | succ n ih => simp only [RequestRelayout, hc, forChildren, hk, ih]

/-! ## Properties of `AddChild` and `removeChild` -/

/-- C2: `removeChild` of a child that is not in the child list returns the heap
it was given: same child lists, same parent back-references, and nothing added
to the call log (no layout marked dirty), whatever the recursion budget. -/
theorem removeChild_nonmember_noop (w : World) (fuel : Nat) (s : Heap) (c child : Nat)
    (h : child ∉ s.children c) : removeChild w fuel s c child = some s :=
  removeChild_absent w fuel s c child h

theorem removeChild_nonmember_noop_witness :
    5 ∉ (link exWorld emptyHeap 0 4).children 0 ∧
      removeChild exWorld 0 (link exWorld emptyHeap 0 4) 0 5
        = some (link exWorld emptyHeap 0 4) :=
  ⟨by decide, removeChild_nonmember_noop exWorld 0 (link exWorld emptyHeap 0 4) 0 5 (by decide)⟩

/-- C3 (amended): when the tree below `c` with `x` added is within the
recursion budget (adding `x` closes no cycle), `AddChild(x)` returns, the child
list of `c` is its old list `L` followed by `x`, every other child list is
untouched and the parent of `x` is the Widget of `c`; invoking the returned
capability then returns, the first occurrence of `x` is gone from the list and
the parent of `x` is nil; when `x` was not already in `L`, all child lists are
what they were before the add. -/
theorem addChild_then_remove_restores (w : World) (fuel : Nat) (s : Heap) (c x : Nat)
    (hd : depthWithin w (link w s c x) fuel c = true) :
    ∃ s1 rm s2, AddChild w fuel s c x = some (s1, rm) ∧
      s1.children c = s.children c ++ [x] ∧
      (∀ k, k ≠ c → s1.children k = s.children k) ∧
      s1.parent (w.widget x) = some (w.widget c) ∧
      rm fuel s1 = some s2 ∧
      s2.children c = (s.children c ++ [x]).erase x ∧
      (∀ k, k ≠ c → s2.children k = s.children k) ∧
      s2.parent (w.widget x) = none ∧
      (x ∉ s.children c → s2.children = s.children) := by
  obtain ⟨t, ht⟩ := RequestRelayout_returns w _ fuel c hd
  obtain ⟨t1, ht1⟩ := remove_after_link w fuel s (logCalls (link w s c x) t) c x hd rfl
  refine ⟨_, _, _, AddChild_eq w fuel s c x t ht, ?_, ?_, ?_, ht1, ?_, ?_, ?_, ?_⟩
  · exact link_children_self w s c x
  · exact fun k hk => link_children_other w s c x k hk
  · simp [link, setAt, logCalls]
  · show (unlink w (logCalls (link w s c x) t) c x).children c = _
    rw [unlink_children_self]
    show ((link w s c x).children c).erase x = _
    rw [link_children_self]
  · intro k hk
    show (unlink w (logCalls (link w s c x) t) c x).children k = _
    rw [unlink_children_other w _ c x k hk]
    exact link_children_other w s c x k hk
  · simp [unlink, setAt, logCalls]
  · intro hx
    exact unlink_link_children w s _ c x hx rfl

theorem addChild_then_remove_restores_witness :
    ∃ s1 rm s2, AddChild exWorld 1 (link exWorld emptyHeap 0 4) 0 5 = some (s1, rm) ∧
      s1.children 0 = [4, 5] ∧
      s1.parent (exWorld.widget 5) = some (exWorld.widget 0) ∧
      rm 1 s1 = some s2 ∧
      s2.children = (link exWorld emptyHeap 0 4).children ∧
      s2.parent (exWorld.widget 5) = none := by
  obtain ⟨s1, rm, s2, h1, h2, _, h4, h5, _, _, h8, h9⟩ :=
    addChild_then_remove_restores exWorld 1 (link exWorld emptyHeap 0 4) 0 5 (by decide)
  exact ⟨s1, rm, s2, h1, h2, h4, h5, h9 (by decide), h8⟩

/-- C3 fails as stated: with child list `[4, 5]`, `AddChild(4)` gives `[4, 5, 4]`
and the returned capability removes the first `4`, leaving `[5, 4]`; and
`AddChild` of the empty Container 0 to itself returns under no recursion
budget. -/
theorem addChild_then_remove_counterexample :
    (addAll exWorld 1 0 emptyHeap [4, 5]).map (fun s => s.children 0) = some [4, 5] ∧
    ((addAll exWorld 1 0 emptyHeap [4, 5]).bind
        fun s => addThenInvoke exWorld 1 s 0 4 0).map (fun s => s.children 0)
      = some [4, 5, 4] ∧
    ((addAll exWorld 1 0 emptyHeap [4, 5]).bind
        fun s => addThenInvoke exWorld 1 s 0 4 1).map (fun s => s.children 0)
      = some [5, 4] ∧
    ∀ fuel, (AddChild exWorld fuel emptyHeap 0 0).isNone = true := by
  refine ⟨rfl, rfl, rfl, ?_⟩
  intro fuel
  have h := RequestRelayout_self_child exWorld (link exWorld emptyHeap 0 0) 0 [] rfl rfl fuel
  simp only [AddChild, h]
  rfl

/-- C1 (amended): when `x` is not yet in the child list of `c` and the tree
below `c` with `x` added is within the recursion budget, invoking the capability
returned by `AddChild(x)` twice returns the very heap that invoking it once
returns. -/
theorem remove_twice_eq_once (w : World) (fuel : Nat) (s : Heap) (c x : Nat)
    (hx : x ∉ s.children c) (hd : depthWithin w (link w s c x) fuel c = true) :
    ∃ s2, addThenInvoke w fuel s c x 1 = some s2 ∧
      addThenInvoke w fuel s c x 2 = some s2 := by
  obtain ⟨t, ht⟩ := RequestRelayout_returns w _ fuel c hd
  obtain ⟨t1, ht1⟩ := remove_after_link w fuel s (logCalls (link w s c x) t) c x hd rfl
  have hgone : x ∉ (logCalls (unlink w (logCalls (link w s c x) t) c x) t1).children c := by
    show x ∉ (unlink w (logCalls (link w s c x) t) c x).children c
    rw [unlink_link_children w s (logCalls (link w s c x) t) c x hx rfl]
    exact hx
  refine ⟨logCalls (unlink w (logCalls (link w s c x) t) c x) t1, ?_, ?_⟩
  · simp only [addThenInvoke, AddChild_eq w fuel s c x t ht, invoke, ht1]
  · simp only [addThenInvoke, AddChild_eq w fuel s c x t ht, invoke, ht1]
    rw [removeChild_absent w fuel _ c x hgone]

theorem remove_twice_eq_once_witness :
    ∃ s2, addThenInvoke exWorld 1 (link exWorld emptyHeap 0 4) 0 5 1 = some s2 ∧
      addThenInvoke exWorld 1 (link exWorld emptyHeap 0 4) 0 5 2 = some s2 :=
  remove_twice_eq_once exWorld 1 (link exWorld emptyHeap 0 4) 0 5 (by decide) (by decide)

/-- C1 fails as stated: after `AddChild(4)` on a Container whose child list is
already `[4]`, one invocation of the returned capability leaves `[4]`, two
invocations leave the empty list. -/
theorem remove_twice_counterexample :
    (addAll exWorld 1 0 emptyHeap [4]).map (fun s => s.children 0) = some [4] ∧
    ((addAll exWorld 1 0 emptyHeap [4]).bind
        fun s => addThenInvoke exWorld 1 s 0 4 1).map (fun s => s.children 0)
      = some [4] ∧
    ((addAll exWorld 1 0 emptyHeap [4]).bind
        fun s => addThenInvoke exWorld 1 s 0 4 2).map (fun s => s.children 0)
      = some [] := by
  refine ⟨?_, ?_, ?_⟩ <;> rfl

/-! ## Tree invariants -/

/-- C4 (amended): when every Widget has its own address and `AddChild` is only
ever given a child whose parent back-reference is nil, every state reached from
empty Containers by `AddChild` and `removeChild` calls is consistent: the parent
of a node is the Widget of `c` exactly when the node is in the child list of
`c`, and a node in the child list of `c` is in no other child list. -/
theorem parent_consistent_of_reachable (w : World) (hinj : Function.Injective w.widget)
    (s : Heap) (h : Reachable w (fun s0 _ x => s0.parent (w.widget x) = none) s) :
    Consistent w s :=
  (reachable_parentless_inv w hinj s h).1

theorem parent_consistent_of_reachable_witness :
    ∃ s, ((addAll exWorld 2 0 emptyHeap [4, 5]).bind fun s0 =>
          (addAll exWorld 2 1 s0 [0]).bind fun s1 => removeChild exWorld 2 s1 0 4)
        = some s ∧ s.children 0 = [5] ∧ s.children 1 = [0] ∧ Consistent exWorld s :=
  ⟨_, rfl, rfl, rfl,
    parent_consistent_of_reachable exWorld (fun _ _ e => Nat.add_right_cancel e) _
      (Reachable.remove 2 0 4 _ _
        (Reachable.add 2 1 0 _ _ _
          (Reachable.add 2 0 5 _ _ _
            (Reachable.add 2 0 4 emptyHeap _ _
              (Reachable.init emptyHeap (fun _ => rfl) (fun _ => rfl)) rfl rfl rfl)
            rfl rfl rfl)
          rfl rfl rfl)
        rfl rfl)⟩

/-- C4 fails as stated: `AddChild(4)` on Container 0 and then on Container 1
leaves node 4 in both child lists, with its parent pointing at Container 1. -/
theorem multi_parent_counterexample :
    ∃ s, Reachable exWorld (fun _ _ _ => True) s ∧
      s.children 0 = [4] ∧ s.children 1 = [4] ∧
      s.parent (exWorld.widget 4) = some (exWorld.widget 1) ∧
      ¬ Consistent exWorld s := by
  refine ⟨_, Reachable.add 1 1 4 _ _ _
      (Reachable.add 1 0 4 emptyHeap _ _
        (Reachable.init emptyHeap (fun _ => rfl) (fun _ => rfl)) rfl trivial rfl)
      rfl trivial rfl, rfl, rfl, rfl, ?_⟩
  intro hcons
  have h := (hcons 4 0).2 (by decide) 1 (by decide)
  exact absurd h (by decide)

/-- C5 (amended): when `AddChild` is only ever given a child that is not
currently in the child list of the Container it is added to, every state
reached from empty Containers by `AddChild` and `removeChild` calls has each
child at most once in each child list. -/
theorem child_at_most_once (w : World) (s : Heap)
    (h : Reachable w (fun s0 c x => x ∉ s0.children c) s) (c x : Nat) :
    (s.children c).count x ≤ 1 := by
  have hnd : ∀ k, (s.children k).Nodup := by
    induction h with
    | init s hc hp =>
      intro k
      rw [hc]
      exact List.nodup_nil
    | add fuel c x s s1 rm _ hk hg hs ih =>
      intro k
      rw [(AddChild_result w fuel s s1 c x rm hs).1]
      exact nodup_link w s c x hg ih k
    | remove fuel c x s s1 _ hk hs ih =>
      rcases removeChild_result w fuel s s1 c x hs with ⟨_, he⟩ | ⟨_, hc1, _⟩
      · rw [he]
        exact ih
      · intro k
        rw [hc1]
        exact nodup_unlink w s c x ih k
  exact List.nodup_iff_count_le_one.mp (hnd c) x

theorem child_at_most_once_witness :
    ∃ s, addAll exWorld 1 0 emptyHeap [4, 5] = some s ∧ (s.children 0).count 4 ≤ 1 :=
  ⟨_, rfl, child_at_most_once exWorld _
    (Reachable.add 1 0 5 _ _ _
      (Reachable.add 1 0 4 emptyHeap _ _
        (Reachable.init emptyHeap (fun _ => rfl) (fun _ => rfl)) rfl (by decide) rfl)
      rfl (by decide) rfl) 0 4⟩

/-- C5 fails as stated: two `AddChild(4)` calls on the empty Container 0 leave
the child list `[4, 4]`. -/
theorem duplicate_child_counterexample :
    ∃ s, Reachable exWorld (fun _ _ _ => True) s ∧ s.children 0 = [4, 4] ∧
      (s.children 0).count 4 = 2 :=
  ⟨_, Reachable.add 1 0 4 _ _ _
      (Reachable.add 1 0 4 emptyHeap _ _
        (Reachable.init emptyHeap (fun _ => rfl) (fun _ => rfl)) rfl trivial rfl)
      rfl trivial rfl, rfl, rfl⟩

/-! ## Relayout propagation -/

/-- Children without the relayout capability contribute no call. -/
theorem forChildren_filter (w : World) (f : Nat → Option (List Call)) (l : List Nat)
    (hf : ∀ ch, (w.kind ch).isRelayoutable = false → f ch = some []) :
    forChildren f l = forChildren f (l.filter fun ch => (w.kind ch).isRelayoutable) := by
  induction l with
  | nil => rfl
  | cons a l ih =>
    cases hk : (w.kind a).isRelayoutable with
    | true =>
      rw [List.filter_cons]
      simp only [hk, if_true, forChildren, ih]
    | false =>
      rw [List.filter_cons]
      simp only [hk, Bool.false_eq_true, if_false, forChildren, hf a hk, List.nil_append]
      rw [ih]
      cases forChildren f (l.filter fun ch => (w.kind ch).isRelayoutable) <;> rfl

/-- One step of `RequestRelayout`, with the loop restricted to the relayoutable
children. -/
theorem RequestRelayout_succ (w : World) (s : Heap) (n c : Nat) :
    RequestRelayout w s (n + 1) c =
      (forChildren (fun ch =>
        match w.kind ch with
        | .container => RequestRelayout w s n ch
        | .widget true _ => some [Call.requestRelayout ch]
        | .widget false _ => some []) (relayoutableChildren w s c)).map
        fun t => markOwnLayout w c ++ t := by
  have hstep : RequestRelayout w s (n + 1) c =
      (forChildren (fun ch =>
        match w.kind ch with
        | .container => RequestRelayout w s n ch
        | .widget true _ => some [Call.requestRelayout ch]
        | .widget false _ => some []) (s.children c)).map
        fun t => markOwnLayout w c ++ t := by
    simp only [RequestRelayout]
    cases forChildren (fun ch =>
        match w.kind ch with
        | .container => RequestRelayout w s n ch
        | .widget true _ => some [Call.requestRelayout ch]
        | .widget false _ => some []) (s.children c) <;> rfl
  rw [hstep, forChildren_filter w _ (s.children c)]
  · rfl
  · intro ch hch
    cases hk : w.kind ch with
    | container => simp [hk, Kind.isRelayoutable] at hch
    | widget r d =>
      rw [hk] at hch
      simp only [Kind.isRelayoutable] at hch
      subst hch
      rfl

theorem IsChain.kind_eq (w : World) (s : Heap) (c : Nat) (ds : List Nat)
    (h : IsChain w s c ds) : w.kind c = Kind.container := by
  cases ds with
  | nil => exact h.1
  | cons d ds => exact h.1

/-- On a chain, `RequestRelayout` returns as soon as the budget exceeds the
number of descendants, with one `MarkDirty` block per Container of the chain. -/
theorem RequestRelayout_chain (w : World) (s : Heap) (c : Nat) (ds : List Nat)
    (h : IsChain w s c ds) (fuel : Nat) (hf : ds.length < fuel) :
    RequestRelayout w s fuel c = some (chainMarks w (c :: ds)) := by
  induction ds generalizing c fuel with
  | nil =>
    obtain ⟨n, rfl⟩ : ∃ n, fuel = n + 1 := ⟨fuel - 1, by simp at hf; omega⟩
    rw [RequestRelayout_succ, h.2]
    simp [forChildren, chainMarks]
  | cons d ds ih =>
    obtain ⟨n, rfl⟩ : ∃ n, fuel = n + 1 := ⟨fuel - 1, by simp at hf; omega⟩
    have hn : ds.length < n := by simp at hf; omega
    have hd := ih d h.2.2 n hn
    have hkd := IsChain.kind_eq w s d ds h.2.2
    rw [RequestRelayout_succ, h.2.1]
    simp only [forChildren, hkd, hd, List.append_nil, Option.map_some']
    rfl

/-- A chain is determined by the Container it starts at. -/
theorem IsChain.unique (w : World) (s : Heap) (c : Nat) (ds es : List Nat)
    (h1 : IsChain w s c ds) (h2 : IsChain w s c es) : ds = es := by
  induction ds generalizing c es with
  | nil =>
    cases es with
    | nil => rfl
    | cons e es =>
      have := h2.2.1
      rw [h1.2] at this
      exact absurd this (by simp)
  | cons d ds ih =>
    cases es with
    | nil =>
      have := h1.2.1
      rw [h2.2] at this
      exact absurd this (by simp)
    | cons e es =>
      have he : [d] = [e] := by rw [← h1.2.1, ← h2.2.1]
      have hde : d = e := by simpa using he
      subst hde
      rw [ih d es h1.2.2 h2.2.2]

/-- Every node of a chain starts the chain of the nodes after it. -/
theorem IsChain.suffix (w : World) (s : Heap) (c : Nat) (pre : List Nat) (d : Nat)
    (post : List Nat) (h : IsChain w s c (pre ++ d :: post)) : IsChain w s d post := by
  induction pre generalizing c with
  | nil => exact h.2.2
  | cons a pre ih => exact ih a h.2.2

/-- The Containers of a chain are pairwise different. -/
theorem IsChain.nodup (w : World) (s : Heap) (c : Nat) (ds : List Nat)
    (h : IsChain w s c ds) : (c :: ds).Nodup := by
  induction ds generalizing c with
  | nil => simp
  | cons d ds ih =>
    rw [List.nodup_cons]
    refine ⟨?_, ih d h.2.2⟩
    intro hmem
    obtain ⟨pre, post, hsplit⟩ := List.append_of_mem hmem
    have hsuf : IsChain w s c post := by
      rw [hsplit] at h
      exact IsChain.suffix w s c pre c post h
    have heq := IsChain.unique w s c _ _ h hsuf
    have hlen := congrArg List.length heq
    rw [hsplit] at hlen
    simp at hlen
    omega

/-- With pairwise different Containers and layouts, the layout of a listed
Container is marked exactly once in the calls of the list. -/
theorem count_chainMarks (w : World) (cs : List Nat) (hnd : cs.Nodup)
    (hdl : DistinctLayouts w cs) (k l : Nat) (hk : k ∈ cs) (hl : w.layout k = some l)
    (hd : w.dirtyable l = true) : (chainMarks w cs).count (Call.markDirty l) = 1 := by
  induction cs with
  | nil => simp at hk
  | cons a cs ih =>
    rw [List.nodup_cons] at hnd
    have hsub : DistinctLayouts w cs := fun k1 h1 k2 h2 l0 e1 e2 =>
      hdl k1 (List.mem_cons_of_mem a h1) k2 (List.mem_cons_of_mem a h2) l0 e1 e2
    have hzero : ∀ (bs : List Nat), (∀ b ∈ bs, w.layout b ≠ some l) →
        (chainMarks w bs).count (Call.markDirty l) = 0 := by
      intro bs
      induction bs with
      | nil => intro _; rfl
      | cons b bs ihb =>
        intro hb
        have hb1 := hb b (List.mem_cons_self b bs)
        have hrest := ihb (fun b0 h0 => hb b0 (List.mem_cons_of_mem b h0))
        simp only [chainMarks, List.count_append, hrest, Nat.add_zero]
        unfold markOwnLayout
        cases hlb : w.layout b with
        | none => simp
        | some l0 =>
          have hne : l0 ≠ l := fun e => hb1 (by rw [hlb, e])
          by_cases hdy : w.dirtyable l0 = true
          · simp only [hdy, if_true]
            rw [List.count_eq_zero]
            simp only [List.mem_singleton, Call.markDirty.injEq]
            exact fun e => hne e.symm
          · simp [hdy]
    simp only [chainMarks, List.count_append]
    rcases List.mem_cons.mp hk with hka | hkc
    · subst hka
      have hrest : (chainMarks w cs).count (Call.markDirty l) = 0 := by
        apply hzero
        intro b hb hlb
        have := hdl k (List.mem_cons_self k cs) b (List.mem_cons_of_mem k hb) l hl hlb
        exact hnd.1 (this ▸ hb)
      rw [hrest]
      simp [markOwnLayout, hl, hd]
    · have hne : w.layout a ≠ some l := by
        intro hla
        have := hdl a (List.mem_cons_self a cs) k (List.mem_cons_of_mem a hkc) l hla hl
        exact hnd.1 (this ▸ hkc)
      have hown : (markOwnLayout w a).count (Call.markDirty l) = 0 := by
        have := hzero [a] (by simpa using hne)
        simpa [chainMarks] using this
      rw [hown, ih hnd.2 hsub hkc]

/-- C9 (amended): on a chain of any depth below Container `c`, one
`RequestRelayout` call on `c` returns as soon as the recursion budget exceeds
the depth, and its calls are the `MarkDirty` calls of the Containers of the
chain, one per Container with a dirtyable layout, in chain order, and nothing
else; when no two Containers of the chain were built with the same layout
object, the dirtyable layout of `c` and of every descendant is marked exactly
once. -/
theorem relayout_marks_chain_once (w : World) (s : Heap) (c : Nat) (ds : List Nat)
    (h : IsChain w s c ds) (fuel : Nat) (hf : ds.length < fuel) :
    ∃ t, RequestRelayout w s fuel c = some t ∧ t = chainMarks w (c :: ds) ∧
      (DistinctLayouts w (c :: ds) →
        ∀ k ∈ c :: ds, ∀ l, w.layout k = some l → w.dirtyable l = true →
          t.count (Call.markDirty l) = 1) :=
  ⟨_, RequestRelayout_chain w s c ds h fuel hf, rfl, fun hdl k hk l hl hd =>
    count_chainMarks w (c :: ds) (IsChain.nodup w s c ds h) hdl k l hk hl hd⟩

theorem relayout_marks_chain_once_witness :
    ∃ t, RequestRelayout exWorld (chainHeap exWorld) 3 0 = some t ∧
      t = [Call.markDirty 10, Call.markDirty 11, Call.markDirty 12] ∧
      ∀ k ∈ [0, 1, 2], ∀ l, exWorld.layout k = some l → exWorld.dirtyable l = true →
        t.count (Call.markDirty l) = 1 := by
  obtain ⟨t, h1, h2, h3⟩ := relayout_marks_chain_once exWorld (chainHeap exWorld) 0 [1, 2]
    ⟨rfl, rfl, rfl, rfl, rfl, rfl⟩ 3 (by decide)
  refine ⟨t, h1, h2, h3 ?_⟩
  intro k1 h1 k2 h2 l e1 e2
  simp only [List.mem_cons, List.mem_singleton, List.not_mem_nil, or_false] at h1 h2
  rcases h1 with rfl | rfl | rfl <;> rcases h2 with rfl | rfl | rfl <;>
    simp [exWorld] at e1 e2 <;> omega

/-- C9 fails as stated: on the chain 0, 1, 2 of Containers built with the one
layout object 7, a single `RequestRelayout` call on Container 0 invokes
`MarkDirty` on that layout three times. -/
theorem shared_layout_counterexample :
    IsChain sharedWorld (chainHeap sharedWorld) 0 [1, 2] ∧
    RequestRelayout sharedWorld (chainHeap sharedWorld) 3 0
      = some [Call.markDirty 7, Call.markDirty 7, Call.markDirty 7] ∧
    (RequestRelayout sharedWorld (chainHeap sharedWorld) 3 0).map
      (fun t => t.count (Call.markDirty 7)) = some 3 :=
  ⟨⟨rfl, rfl, rfl, rfl, rfl, rfl⟩, rfl, rfl⟩

/-! ## Paint order -/

theorem addAll_children (w : World) (fuel c : Nat) (xs : List Nat) (s s1 : Heap)
    (h : addAll w fuel c s xs = some s1) : s1.children c = s.children c ++ xs := by
  induction xs generalizing s with
  | nil =>
    simp only [addAll, Option.some.injEq] at h
    rw [← h]
    simp
  | cons x xs ih =>
    unfold addAll at h
    cases ha : AddChild w fuel s c x with
    | none => simp [ha] at h
    | some p =>
      obtain ⟨s2, rm⟩ := p
      simp only [ha] at h
      rw [ih s2 h, (AddChild_result w fuel s s2 c x rm ha).1, link_children_self]
      simp

theorem renderChildren_eq (w : World) (l : List Nat) :
    renderChildren w l = (l.filter fun x => (w.kind x).isRenderer).map Call.render := by
  induction l with
  | nil => rfl
  | cons a l ih =>
    rw [List.filter_cons]
    by_cases hk : (w.kind a).isRenderer = true
    · simp [renderChildren, hk, ih]
    · simp [renderChildren, hk, ih]

theorem disableChildren_children (w : World) (c : Nat) (l : List Nat) (s : Heap) :
    (disableChildren w c l s).children = s.children ∧ (disableChildren w c l s).log = s.log := by
  induction l generalizing s with
  | nil => exact ⟨rfl, rfl⟩
  | cons a l ih =>
    simp only [disableChildren]
    exact ih _

theorem filterMap_renderedNode_render (l : List Nat) :
    (l.map Call.render).filterMap renderedNode = l := by
  induction l with
  | nil => rfl
  | cons a l ih => simp [renderedNode, ih]

theorem count_map_render (x : Nat) (l : List Nat) :
    (l.map Call.render).count (Call.render x) = l.count x := by
  induction l with
  | nil => rfl
  | cons a l ih =>
    by_cases h : a = x
    · subst h
      simp [ih]
    · have h1 : Call.render x ≠ Call.render a := fun e => h (Call.render.inj e).symm
      have h2 : x ≠ a := fun e => h e.symm
      rw [List.map_cons, List.count_cons_of_ne h1, List.count_cons_of_ne h2, ih]

theorem count_filter_renderer (w : World) (x : Nat) (l : List Nat) :
    (l.filter fun y => (w.kind y).isRenderer).count x
      = if (w.kind x).isRenderer = true then l.count x else 0 := by
  induction l with
  | nil => simp
  | cons a l ih =>
    rw [List.filter_cons]
    by_cases h : a = x
    · subst h
      by_cases hr : (w.kind a).isRenderer = true
      · simp only [hr, if_true, List.count_cons_self] at ih ⊢
        rw [ih]
      · simp only [hr, if_false] at ih ⊢
        exact ih
    · have h2 : x ≠ a := fun e => h e.symm
      by_cases hr : (w.kind a).isRenderer = true
      · simp only [hr, if_true]
        rw [List.count_cons_of_ne h2, List.count_cons_of_ne h2, ih]
      · simp only [hr, Bool.false_eq_true, if_false]
        rw [List.count_cons_of_ne h2, ih]

/-- The log after `Render`: the old log, the layout, widget and background
calls, then one `Render` call per child with the capability, in list order. -/
theorem Render_log (w : World) (s : Heap) (c : Nat) :
    (Render w s c).log = s.log ++ (doLayout w s c ++ [Call.widgetRender (w.widget c)]
      ++ draw w c) ++ ((s.children c).filter fun x => (w.kind x).isRenderer).map Call.render := by
  unfold Render
  by_cases ha : s.AutoDisableChildren c = true
  · simp only [ha, if_true, logCalls, doLayout,
      (disableChildren_children w c (s.children c) s).1,
      (disableChildren_children w c (s.children c) s).2, renderChildren_eq]
    simp
  · simp only [ha, if_false, logCalls, renderChildren_eq]
    simp

/-- C10 (amended): after the children `xs` were added, in that order, with
`AddChild` to an empty Container, one `Render` call appends to the log the
layout, widget and background calls followed by one `Render` call for every
entry of `xs` that has the render capability, in the order of `xs`; entries
without the capability produce no call, and a child with the capability is
rendered as many times as it was added. -/
theorem render_in_added_order (w : World) (fuel c : Nat) (s0 s : Heap) (xs : List Nat)
    (hempty : s0.children c = []) (hadd : addAll w fuel c s0 xs = some s) :
    (Render w s c).log = s.log ++ (doLayout w s c ++ [Call.widgetRender (w.widget c)]
      ++ draw w c) ++ (xs.filter fun x => (w.kind x).isRenderer).map Call.render ∧
    ((Render w s c).log.drop s.log.length).filterMap renderedNode
      = xs.filter (fun x => (w.kind x).isRenderer) ∧
    ∀ x, ((Render w s c).log.drop s.log.length).count (Call.render x)
      = if (w.kind x).isRenderer = true then xs.count x else 0 := by
  have hch : s.children c = xs := by
    rw [addAll_children w fuel c xs s0 s hadd, hempty]
    rfl
  have hlog := Render_log w s c
  rw [hch] at hlog
  have hpre : (doLayout w s c ++ [Call.widgetRender (w.widget c)] ++ draw w c).filterMap
      renderedNode = [] := by
    unfold doLayout draw
    cases w.layout c <;> cases w.BackgroundImage c <;> rfl
  have hpre0 : ∀ x, (doLayout w s c ++ [Call.widgetRender (w.widget c)] ++ draw w c).count
      (Call.render x) = 0 := by
    intro x
    unfold doLayout draw
    cases w.layout c <;> cases w.BackgroundImage c <;> rfl
  refine ⟨hlog, ?_, ?_⟩
  · rw [hlog, List.append_assoc, List.drop_left, List.filterMap_append,
      filterMap_renderedNode_render, hpre]
    rfl
  · intro x
    rw [hlog, List.append_assoc, List.drop_left, List.count_append, hpre0 x,
      count_map_render, count_filter_renderer, Nat.zero_add]

theorem render_in_added_order_witness :
    ∃ s, addAll exWorld 1 0 emptyHeap [4, 5, 3] = some s ∧
      ((Render exWorld s 0).log.drop s.log.length).filterMap renderedNode = [4, 3] :=
  ⟨_, rfl, (render_in_added_order exWorld 1 0 emptyHeap _ [4, 5, 3] rfl rfl).2.1⟩

/-- C10 fails as stated: after `AddChild(4)` twice on the empty Container 0, one
`Render` call invokes `Render` on child 4 twice. -/
theorem render_twice_counterexample :
    ((addAll exWorld 1 0 emptyHeap [4, 4]).map fun s =>
      ((Render exWorld s 0).log.drop s.log.length).filterMap renderedNode) = some [4, 4] ∧
    ((addAll exWorld 1 0 emptyHeap [4, 4]).map fun s =>
      ((Render exWorld s 0).log.drop s.log.length).count (Call.render 4)) = some 2 :=
  ⟨rfl, rfl⟩

end Container

/-! ## Lemmas on the ScrollContainer arithmetic -/

theorem wrapInt_eq (x : Int) (h1 : -2 ^ 63 ≤ x) (h2 : x < 2 ^ 63) : wrapInt x = x := by
  unfold wrapInt
  omega

theorem roundHalfEven_intCast (n : Int) : roundHalfEven (n : ℚ) = n := by
  unfold roundHalfEven
  simp

theorem roundHalfEven_ge (D : Int) (y : ℚ) (h : (D : ℚ) ≤ y) : D ≤ roundHalfEven y := by
  have hf : D ≤ ⌊y⌋ := Int.le_floor.mpr h
  unfold roundHalfEven
  split_ifs <;> omega

theorem roundHalfEven_le (D : Int) (y : ℚ) (h : y ≤ (D : ℚ)) : roundHalfEven y ≤ D := by
  have hf : ⌊y⌋ ≤ D := by
    have := Int.floor_le y
    exact_mod_cast (this.trans h)
  unfold roundHalfEven
  split_ifs with h1 h2 h3
  · exact hf
  · have hq : (⌊y⌋ : ℚ) < D := by linarith
    have hz : ⌊y⌋ < D := by exact_mod_cast hq
    omega
  · exact hf
  · have hq : (⌊y⌋ : ℚ) < D := by
      push_neg at h1
      linarith
    have hz : ⌊y⌋ < D := by exact_mod_cast hq
    omega

/-- Below `2 ^ z` the spacing of the `float64` values is at most `2 ^ (z - 53)`. -/
theorem quantumExp_ge (x : ℚ) (hx : x ≠ 0) (z : Int) (hz : -1021 ≤ z)
    (hlt : |x| < (2 : ℚ) ^ z) : 53 - z ≤ quantumExp x := by
  have hpos : 0 < |x| := abs_pos.mpr hx
  have hlog : Int.log 2 |x| < z := by
    apply (Int.lt_zpow_iff_log_lt (by norm_num : 1 < 2) hpos).mp
    exact_mod_cast hlt
  unfold quantumExp
  omega

/-- A multiple of `2 ^ (-K)` is a `float64` when the spacing around it is no
coarser than `2 ^ (-K)`. -/
theorem roundToFloat64_exact (x : ℚ) (K : ℕ) (m : Int) (hm : x * (2 : ℚ) ^ K = m)
    (hK : x ≠ 0 → (K : Int) ≤ quantumExp x) : roundToFloat64 x = x := by
  unfold roundToFloat64
  split_ifs with h0
  · exact h0.symm
  · obtain ⟨N, hN⟩ := Int.le.dest (hK h0)
    have hk : quantumExp x = ((K + N : ℕ) : Int) := by
      rw [← hN]
      push_cast
      rfl
    rw [hk, zpow_natCast, pow_add]
    have hy : x * ((2 : ℚ) ^ K * (2 : ℚ) ^ N) = ((m * 2 ^ N : Int) : ℚ) := by
      rw [← mul_assoc, hm]
      push_cast
      rfl
    rw [hy, roundHalfEven_intCast, ← hy]
    have h2 : ((2 : ℚ) ^ K * (2 : ℚ) ^ N) ≠ 0 := by positivity
    field_simp

/-- An integer below `2 ^ 53` in absolute value converts to `float64` exactly. -/
theorem roundToFloat64_intCast (d : Int) (h1 : -2 ^ 53 < d) (h2 : d < 2 ^ 53) :
    roundToFloat64 (d : ℚ) = d := by
  apply roundToFloat64_exact (d : ℚ) 0 d (by simp)
  intro hx
  have hlt : |(d : ℚ)| < (2 : ℚ) ^ (53 : Int) := by
    rw [abs_lt]
    constructor
    · have : ((-2 ^ 53 : Int) : ℚ) < (d : ℚ) := by exact_mod_cast h1
      norm_num at this ⊢
      exact this
    · have : (d : ℚ) < ((2 ^ 53 : Int) : ℚ) := by exact_mod_cast h2
      norm_num at this ⊢
      exact this
  have := quantumExp_ge (d : ℚ) hx 53 (by norm_num) hlt
  simpa using this

/-- Half of an integer below `2 ^ 53` in absolute value is a `float64`. -/
theorem roundToFloat64_half (d : Int) (h1 : -2 ^ 53 < d) (h2 : d < 2 ^ 53) :
    roundToFloat64 ((d : ℚ) * (1 / 2)) = (d : ℚ) * (1 / 2) := by
  apply roundToFloat64_exact ((d : ℚ) * (1 / 2)) 1 d (by ring)
  intro hx
  have hlt : |(d : ℚ) * (1 / 2)| < (2 : ℚ) ^ (52 : Int) := by
    rw [abs_lt]
    constructor
    · have : ((-2 ^ 53 : Int) : ℚ) < (d : ℚ) := by exact_mod_cast h1
      norm_num at this ⊢
      linarith
    · have : (d : ℚ) < ((2 ^ 53 : Int) : ℚ) := by exact_mod_cast h2
      norm_num at this ⊢
      linarith
  have := quantumExp_ge ((d : ℚ) * (1 / 2)) hx 52 (by norm_num) hlt
  simpa using this

/-- Rounding to `float64` keeps a value between the integer `d`, above
`-2 ^ 53`, and 0. -/
theorem roundToFloat64_nonpos_bounds (d : Int) (x : ℚ) (h53 : -2 ^ 53 < d)
    (hd : (d : ℚ) ≤ x) (hx : x ≤ 0) :
    (d : ℚ) ≤ roundToFloat64 x ∧ roundToFloat64 x ≤ 0 := by
  by_cases h0 : x = 0
  · subst h0
    simp only [roundToFloat64, if_true]
    exact ⟨hd, le_refl 0⟩
  · have hlt : |x| < (2 : ℚ) ^ (53 : Int) := by
      rw [abs_lt]
      have : ((-2 ^ 53 : Int) : ℚ) < (d : ℚ) := by exact_mod_cast h53
      norm_num at this ⊢
      constructor <;> linarith
    have hk : 0 ≤ quantumExp x := by
      have := quantumExp_ge x h0 53 (by norm_num) hlt
      simpa using this
    obtain ⟨N, hN⟩ := Int.eq_ofNat_of_zero_le hk
    simp only [roundToFloat64, h0, if_false]
    rw [hN, zpow_natCast]
    have hp : (0 : ℚ) < (2 : ℚ) ^ N := by positivity
    have hlo : ((d * 2 ^ N : Int) : ℚ) ≤ x * (2 : ℚ) ^ N := by
      push_cast
      exact mul_le_mul_of_nonneg_right hd hp.le
    have hhi : x * (2 : ℚ) ^ N ≤ ((0 : Int) : ℚ) := by
      push_cast
      exact mul_nonpos_of_nonpos_of_nonneg hx hp.le
    have h1 := roundHalfEven_ge _ _ hlo
    have h2 := roundHalfEven_le _ _ hhi
    have h1q : ((d * 2 ^ N : Int) : ℚ) ≤ (roundHalfEven (x * (2 : ℚ) ^ N) : ℚ) := by
      exact_mod_cast h1
    have h2q : (roundHalfEven (x * (2 : ℚ) ^ N) : ℚ) ≤ 0 := by exact_mod_cast h2
    constructor
    · rw [le_div_iff₀ hp]
      push_cast at h1q
      exact h1q
    · exact div_nonpos_of_nonpos_of_nonneg h2q hp.le

theorem goRound_intCast (n : Int) : goRound (n : ℚ) = n := by
  unfold goRound
  split_ifs with h
  · rw [Int.floor_eq_iff]
    constructor <;> linarith
  · have hf : ⌊-(n : ℚ) + 1 / 2⌋ = -n := by
      rw [Int.floor_eq_iff]
      constructor <;> push_cast <;> linarith
    rw [hf]
    simp

theorem goRound_zero : goRound 0 = 0 := by
  have := goRound_intCast 0
  simpa using this

/-- Rounding a value between the integer `d` and 0 gives an integer between
`d` and 0. -/
theorem goRound_nonpos_bounds (d : Int) (x : ℚ) (hd : (d : ℚ) ≤ x) (hx : x ≤ 0) :
    d ≤ goRound x ∧ goRound x ≤ 0 := by
  unfold goRound
  split_ifs with h
  · have hx0 : x = 0 := le_antisymm hx h
    subst hx0
    have hf : ⌊(0 : ℚ) + 1 / 2⌋ = 0 := by
      rw [Int.floor_eq_iff]
      constructor <;> norm_num
    rw [hf]
    exact ⟨by exact_mod_cast hd, le_refl 0⟩
  · push_neg at h
    have hnn : 0 ≤ ⌊-x + 1 / 2⌋ := by
      rw [Int.floor_nonneg]
      linarith
    have hle : (⌊-x + 1 / 2⌋ : ℚ) ≤ -x + 1 / 2 := Int.floor_le _
    have hlt : (⌊-x + 1 / 2⌋ : ℚ) < ((-d + 1 : Int) : ℚ) := by
      push_cast
      linarith
    have hlt1 : ⌊-x + 1 / 2⌋ < -d + 1 := by exact_mod_cast hlt
    constructor <;> omega

/-- Rounding half of a non-negative integer. -/
theorem goRound_half (d : Int) (hd : 0 ≤ d) : goRound ((d : ℚ) * (1 / 2)) = (d + 1) / 2 := by
  have hq : (0 : ℚ) ≤ (d : ℚ) := by exact_mod_cast hd
  have h1 : 2 * ((d + 1) / 2) ≤ d + 1 := by omega
  have h2 : d + 1 < 2 * ((d + 1) / 2) + 2 := by omega
  have h1q : (2 : ℚ) * (((d + 1) / 2 : Int) : ℚ) ≤ (d : ℚ) + 1 := by exact_mod_cast h1
  have h2q : (d : ℚ) + 1 < 2 * (((d + 1) / 2 : Int) : ℚ) + 2 := by exact_mod_cast h2
  unfold goRound
  rw [if_pos (by linarith)]
  rw [Int.floor_eq_iff]
  constructor <;> linarith

namespace ScrollContainer

/-- When the difference is below `2 ^ 53` in absolute value, neither the integer
subtraction nor the conversion to `float64` changes it: only the product is
rounded. -/
theorem scrollOffset_eq (content viewport : Int) (f : ℚ)
    (h1 : -2 ^ 53 < content - viewport) (h2 : content - viewport < 2 ^ 53) :
    scrollOffset content viewport f
      = goRound (roundToFloat64 (((content - viewport : Int) : ℚ) * f)) := by
  unfold scrollOffset
  rw [wrapInt_eq _ (by omega) (by omega), roundToFloat64_intCast _ h1 h2]

theorem scrollOffset_zero (content viewport : Int) : scrollOffset content viewport 0 = 0 := by
  unfold scrollOffset
  rw [mul_zero]
  simp [roundToFloat64, goRound_zero]

theorem scrollOffset_one (content viewport : Int)
    (h1 : -2 ^ 53 < content - viewport) (h2 : content - viewport < 2 ^ 53) :
    scrollOffset content viewport 1 = content - viewport := by
  rw [scrollOffset_eq content viewport 1 h1 h2, mul_one, roundToFloat64_intCast _ h1 h2]
  exact goRound_intCast _

theorem scrollOffset_half (content viewport : Int)
    (h1 : 0 ≤ content - viewport) (h2 : content - viewport < 2 ^ 53) :
    scrollOffset content viewport (1 / 2) = (content - viewport + 1) / 2 := by
  rw [scrollOffset_eq content viewport (1 / 2) (by omega) h2,
    roundToFloat64_half _ (by omega) h2]
  exact goRound_half _ h1

theorem scrollOffset_same (content : Int) (f : ℚ) : scrollOffset content content f = 0 := by
  unfold scrollOffset
  have h : wrapInt (content - content) = 0 := by
    rw [sub_self]
    rfl
  rw [h]
  simp [roundToFloat64, goRound_zero]

/-- For a content not larger than the viewport and a fraction between 0 and 1
the offset lies between the difference and 0. -/
theorem scrollOffset_bounds (content viewport : Int) (f : ℚ)
    (h1 : -2 ^ 53 < content - viewport) (h2 : content - viewport ≤ 0)
    (hf0 : 0 ≤ f) (hf1 : f ≤ 1) :
    content - viewport ≤ scrollOffset content viewport f ∧
      scrollOffset content viewport f ≤ 0 := by
  rw [scrollOffset_eq content viewport f h1 (by omega)]
  have hd : (((content - viewport : Int) : ℚ)) ≤ 0 := by exact_mod_cast h2
  have hb := roundToFloat64_nonpos_bounds (content - viewport)
    (((content - viewport : Int) : ℚ) * f) h1 (by nlinarith) (by nlinarith)
  exact goRound_nonpos_bounds _ _ hb.1 hb.2

theorem clampScroll_ScrollTop (s : ScrollContainer) :
    (clampScroll s).ScrollTop =
      if s.ScrollTop < 0 then 0 else if s.ScrollTop > 1 then 1 else s.ScrollTop := rfl

theorem clampScroll_ScrollLeft (s : ScrollContainer) :
    (clampScroll s).ScrollLeft =
      if s.ScrollLeft < 0 then 0 else if s.ScrollLeft > 1 then 1 else s.ScrollLeft := rfl

/-- The first call of `renderContent` on a content that is both a `Renderer`
and `Locateable` is `SetLocation` with the computed rectangle. -/
theorem renderContent_head (s : ScrollContainer) (ct : Content) (hc : s.content = some ct)
    (hr : ct.isRenderer = true) (hl : ct.isLocateable = true) :
    ∃ rest, renderContent s = ScrollCall.setLocation (contentLocation s ct) :: rest := by
  unfold renderContent
  rw [hc]
  simp only [hr, hl, Bool.not_true, Bool.false_eq_true, if_false, if_true, List.cons_append]
  exact ⟨_, rfl⟩

theorem setFraction_content (s : ScrollContainer) (a : Axis) (f : ℚ) :
    (setFraction s a f).content = s.content ∧
    contentSize (setFraction s a f) = contentSize s ∧
    ContentRect (setFraction s a f) = ContentRect s ∧
    fraction (setFraction s a f) a = f := by
  cases a <;> exact ⟨rfl, rfl, rfl, rfl⟩

theorem setFraction_InRange (s : ScrollContainer) (ct : Content) (a : Axis) (f : ℚ)
    (h : InRange s ct) : InRange (setFraction s a f) ct := by
  cases a <;> exact h

/-- At pixel magnitudes the viewport is the Widget rectangle moved inwards by
the padding, without wrap-around. -/
theorem ContentRect_coords (s : ScrollContainer) (ct : Content) (h : InRange s ct) :
    (ContentRect s).Min.X = s.widgetRect.Min.X + s.padding.Left ∧
    (ContentRect s).Min.Y = s.widgetRect.Min.Y + s.padding.Top ∧
    (ContentRect s).Max.X = s.widgetRect.Max.X - s.padding.Right ∧
    (ContentRect s).Max.Y = s.widgetRect.Max.Y - s.padding.Bottom ∧
    (ContentRect s).Dx
      = s.widgetRect.Max.X - s.padding.Right - (s.widgetRect.Min.X + s.padding.Left) ∧
    (ContentRect s).Dy
      = s.widgetRect.Max.Y - s.padding.Bottom - (s.widgetRect.Min.Y + s.padding.Top) := by
  obtain ⟨⟨h1, h2, h3, h4⟩, ⟨h5, h6, h7, h8⟩, _⟩ := h
  unfold Within at h1 h2 h3 h4 h5 h6 h7 h8
  simp only [ContentRect, Insets.Apply, Rectangle.Dx, Rectangle.Dy, wrapInt]
  refine ⟨?_, ?_, ?_, ?_, ?_, ?_⟩ <;> omega

/-- At pixel magnitudes the content size stays a pixel magnitude. -/
theorem contentSize_bounds (s : ScrollContainer) (ct : Content) (h : InRange s ct) :
    (-2 ^ 26 ≤ (contentSize s ct).1 ∧ (contentSize s ct).1 ≤ 2 ^ 26) ∧
    (-2 ^ 26 ≤ (contentSize s ct).2 ∧ (contentSize s ct).2 ≤ 2 ^ 26) := by
  have hcr := ContentRect_coords s ct h
  obtain ⟨⟨h1, h2, h3, h4⟩, ⟨h5, h6, h7, h8⟩, hp⟩ := h
  unfold Within at h1 h2 h3 h4 h5 h6 h7 h8
  have hdx := hcr.2.2.2.2.1
  unfold contentSize
  cases hps : ct.preferredSize with
  | none =>
    simp only
    refine ⟨?_, ?_⟩
    · split_ifs <;> omega
    · omega
  | some p =>
    obtain ⟨hp1, hp2⟩ := hp p hps
    unfold Within at hp1 hp2
    simp only
    refine ⟨?_, ?_⟩
    · split_ifs <;> omega
    · omega

/-- The difference between content size and viewport size on an axis is below
`2 ^ 53` in absolute value at pixel magnitudes. -/
theorem difference_bounds (s : ScrollContainer) (ct : Content) (a : Axis)
    (h : InRange s ct) :
    -2 ^ 53 < sizeAlong (contentSize s ct) a - (ContentRect s).extent a ∧
    sizeAlong (contentSize s ct) a - (ContentRect s).extent a < 2 ^ 53 := by
  have hcr := ContentRect_coords s ct h
  have hsz := contentSize_bounds s ct h
  obtain ⟨⟨h1, h2, h3, h4⟩, ⟨h5, h6, h7, h8⟩, _⟩ := h
  unfold Within at h1 h2 h3 h4 h5 h6 h7 h8
  cases a
  · simp only [sizeAlong, Rectangle.extent]
    omega
  · simp only [sizeAlong, Rectangle.extent]
    omega

/-- The located rectangle on an axis, at pixel magnitudes, for a content of
non-negative size and an offset below `2 ^ 53` in absolute value: it starts at
the viewport start minus the offset and is as long as the content. -/
theorem contentLocation_coords (s : ScrollContainer) (ct : Content) (a : Axis)
    (h : InRange s ct) (hw : 0 ≤ sizeAlong (contentSize s ct) a)
    (ho1 : -2 ^ 53 ≤ scrollOffset (sizeAlong (contentSize s ct) a)
      ((ContentRect s).extent a) (fraction s a))
    (ho2 : scrollOffset (sizeAlong (contentSize s ct) a)
      ((ContentRect s).extent a) (fraction s a) ≤ 2 ^ 53) :
    (contentLocation s ct).Min.coord a = (ContentRect s).Min.coord a
      - scrollOffset (sizeAlong (contentSize s ct) a) ((ContentRect s).extent a)
          (fraction s a) ∧
    (contentLocation s ct).Max.coord a
      = (contentLocation s ct).Min.coord a + sizeAlong (contentSize s ct) a := by
  have hcr := ContentRect_coords s ct h
  have hsz := contentSize_bounds s ct h
  obtain ⟨⟨h1, h2, h3, h4⟩, ⟨h5, h6, h7, h8⟩, _⟩ := h
  unfold Within at h1 h2 h3 h4 h5 h6 h7 h8
  cases a
  · simp only [sizeAlong, Rectangle.extent, fraction] at hw ho1 ho2
    have hn : ¬ (0 : Int) > (contentSize s ct).1 := not_lt.mpr hw
    simp only [contentLocation, Rect, Rectangle.Add, Rectangle.Sub, Point.coord, sizeAlong,
      Rectangle.extent, fraction, hn, if_false, hcr.1]
    generalize scrollOffset (contentSize s ct).1 (ContentRect s).Dx s.ScrollLeft = off
      at ho1 ho2 ⊢
    unfold wrapInt
    constructor <;> omega
  · simp only [sizeAlong, Rectangle.extent, fraction] at hw ho1 ho2
    have hn : ¬ (0 : Int) > (contentSize s ct).2 := not_lt.mpr hw
    simp only [contentLocation, Rect, Rectangle.Add, Rectangle.Sub, Point.coord, sizeAlong,
      Rectangle.extent, fraction, hn, if_false, hcr.2.1]
    generalize scrollOffset (contentSize s ct).2 (ContentRect s).Dy s.ScrollTop = off
      at ho1 ho2 ⊢
    unfold wrapInt
    constructor <;> omega

theorem ContentRect_extent (s : ScrollContainer) (ct : Content) (a : Axis)
    (h : InRange s ct) :
    (ContentRect s).Max.coord a = (ContentRect s).Min.coord a + (ContentRect s).extent a := by
  have hcr := ContentRect_coords s ct h
  cases a
  · simp only [Rectangle.extent, Point.coord]
    omega
  · simp only [Rectangle.extent, Point.coord]
    omega

/-! ### The rounding model on three concrete values -/

theorem roundHalfEven_tie_even (n : Int) (hn : n % 2 = 0) :
    roundHalfEven ((n : ℚ) + 1 / 2) = n := by
  have hf : ⌊(n : ℚ) + 1 / 2⌋ = n := by
    rw [Int.floor_eq_iff]
    constructor <;> linarith
  unfold roundHalfEven
  rw [hf]
  have h1 : ¬ ((n : ℚ) + 1 / 2 - n < 1 / 2) := by
    intro h
    linarith
  have h2 : ¬ (1 / 2 < (n : ℚ) + 1 / 2 - n) := by
    intro h
    linarith
  rw [if_neg h1, if_neg h2, if_pos hn]

/-- Rounding to `float64` of a value whose binary exponent is known. -/
theorem roundToFloat64_of_log (x : ℚ) (e k : Int) (hx : x ≠ 0)
    (hlo : (2 : ℚ) ^ e ≤ |x|) (hhi : |x| < (2 : ℚ) ^ (e + 1))
    (hk : k = 52 - max e (-1022)) :
    roundToFloat64 x = (roundHalfEven (x * (2 : ℚ) ^ k) : ℚ) / (2 : ℚ) ^ k := by
  have hpos : 0 < |x| := abs_pos.mpr hx
  have h1 : Int.log 2 |x| < e + 1 := by
    apply (Int.lt_zpow_iff_log_lt (by norm_num : 1 < 2) hpos).mp
    exact_mod_cast hhi
  have h2 : e ≤ Int.log 2 |x| := by
    apply (Int.zpow_le_iff_le_log (by norm_num : 1 < 2) hpos).mp
    exact_mod_cast hlo
  have he : Int.log 2 |x| = e := by omega
  unfold roundToFloat64 quantumExp
  rw [if_neg hx, he, ← hk]

/-- `float64(2^53 + 1)` is `2^53`. -/
theorem roundToFloat64_huge :
    roundToFloat64 ((9007199254740993 : Int) : ℚ) = 9007199254740992 := by
  rw [roundToFloat64_of_log _ 53 (-1) (by norm_num) (by norm_num [abs_of_pos])
    (by norm_num [abs_of_pos]) (by norm_num)]
  have h : ((9007199254740993 : Int) : ℚ) * (2 : ℚ) ^ (-1 : Int)
      = ((4503599627370496 : Int) : ℚ) + 1 / 2 := by norm_num
  rw [h, roundHalfEven_tie_even _ (by norm_num)]
  norm_num

theorem roundToFloat64_pow53 : roundToFloat64 (9007199254740992 : ℚ) = 9007199254740992 := by
  rw [roundToFloat64_of_log _ 53 (-1) (by norm_num) (by norm_num [abs_of_pos])
    (by norm_num [abs_of_pos]) (by norm_num)]
  have h : (9007199254740992 : ℚ) * (2 : ℚ) ^ (-1 : Int)
      = ((4503599627370496 : Int) : ℚ) := by norm_num
  rw [h, roundHalfEven_intCast]
  norm_num

/-- The `float64` product of -5 and the `float64` nearest to 0.7 is -3.5, although
the exact product is above -3.5. -/
theorem roundToFloat64_near_half :
    roundToFloat64 (((95 - 100 : Int) : ℚ) * (3152519739159347 / 4503599627370496))
      = -7 / 2 := by
  rw [roundToFloat64_of_log _ 1 51 (by norm_num) (by norm_num [abs_of_neg])
    (by norm_num [abs_of_neg]) (by norm_num)]
  have h : ((95 - 100 : Int) : ℚ) * (3152519739159347 / 4503599627370496)
      * (2 : ℚ) ^ (51 : Int) = ((-7881299347898368 : Int) : ℚ) + 1 / 2 := by norm_num
  rw [h, roundHalfEven_tie_even _ (by norm_num)]
  norm_num

theorem goRound_neg_seven_halves : goRound (-7 / 2) = -4 := by
  unfold goRound
  rw [if_neg (by norm_num)]
  have hf : ⌊-(-7 / 2 : ℚ) + 1 / 2⌋ = 4 := by
    rw [Int.floor_eq_iff]
    constructor <;> norm_num
  rw [hf]

theorem scrollOffset_near_half :
    scrollOffset 95 100 (3152519739159347 / 4503599627370496) = -4 := by
  rw [scrollOffset_eq 95 100 _ (by norm_num) (by norm_num), roundToFloat64_near_half]
  exact goRound_neg_seven_halves

theorem scrollOffset_huge : scrollOffset 9007199254740993 0 1 = 9007199254740992 := by
  unfold scrollOffset
  have hw : wrapInt (9007199254740993 - 0) = 9007199254740993 := by decide
  rw [hw, roundToFloat64_huge, mul_one, roundToFloat64_pow53]
  have := goRound_intCast 9007199254740992
  norm_num at this ⊢
  exact this

/-! ## Properties of the ScrollContainer -/

/-- C6: after one `Render` call both scroll fractions lie between 0 and 1: a
fraction below 0 has become 0, a fraction above 1 has become 1, and a fraction
already between 0 and 1 is unchanged; this holds for every value of the two
fields. -/
theorem render_clamps_scroll (s : ScrollContainer) :
    (0 ≤ (Render s).1.ScrollTop ∧ (Render s).1.ScrollTop ≤ 1 ∧
      0 ≤ (Render s).1.ScrollLeft ∧ (Render s).1.ScrollLeft ≤ 1) ∧
    ((s.ScrollTop < 0 → (Render s).1.ScrollTop = 0) ∧
      (1 < s.ScrollTop → (Render s).1.ScrollTop = 1) ∧
      (0 ≤ s.ScrollTop → s.ScrollTop ≤ 1 → (Render s).1.ScrollTop = s.ScrollTop)) ∧
    ((s.ScrollLeft < 0 → (Render s).1.ScrollLeft = 0) ∧
      (1 < s.ScrollLeft → (Render s).1.ScrollLeft = 1) ∧
      (0 ≤ s.ScrollLeft → s.ScrollLeft ≤ 1 → (Render s).1.ScrollLeft = s.ScrollLeft)) := by
  have ht : (Render s).1.ScrollTop =
      if s.ScrollTop < 0 then 0 else if s.ScrollTop > 1 then 1 else s.ScrollTop :=
    clampScroll_ScrollTop s
  have hl : (Render s).1.ScrollLeft =
      if s.ScrollLeft < 0 then 0 else if s.ScrollLeft > 1 then 1 else s.ScrollLeft :=
    clampScroll_ScrollLeft s
  rw [ht, hl]
  refine ⟨⟨?_, ?_, ?_, ?_⟩, ⟨?_, ?_, ?_⟩, ⟨?_, ?_, ?_⟩⟩
  · split_ifs <;> linarith
  · split_ifs <;> linarith
  · split_ifs <;> linarith
  · split_ifs <;> linarith
  · intro h
    rw [if_pos h]
  · intro h
    rw [if_neg (by linarith), if_pos h]
  · intro h0 h1
    rw [if_neg (by linarith), if_neg (by linarith)]
  · intro h
    rw [if_pos h]
  · intro h
    rw [if_neg (by linarith), if_pos h]
  · intro h0 h1
    rw [if_neg (by linarith), if_neg (by linarith)]

theorem render_clamps_scroll_witness :
    (Render wideContent).1.ScrollTop = 0 ∧ (Render wideContent).1.ScrollLeft = 1 :=
  ⟨(render_clamps_scroll wideContent).2.1.1 (by norm_num [wideContent]),
    (render_clamps_scroll wideContent).2.2.2.1 (by norm_num [wideContent])⟩

/-- C7 (amended): at pixel magnitudes, for a content of non-negative size that
is not larger than the viewport on an axis and a scroll fraction between 0 and
1 on that axis, the first call of `renderContent` is `SetLocation` with a
rectangle that starts, on that axis, at the viewport start (the container
origin plus padding) minus the scroll offset; that offset is
`round(fl((content - viewport) * fraction))`, with `fl` the rounding of the
`float64` product; it lies between `content - viewport` and 0, it is 0 when the
content size equals the viewport size or the fraction is 0, and it is the
negative number `content - viewport` when the fraction is 1. -/
theorem offset_when_content_fits (s : ScrollContainer) (ct : Content) (a : Axis)
    (hc : s.content = some ct) (hr : ct.isRenderer = true) (hl : ct.isLocateable = true)
    (hrange : InRange s ct)
    (hw : 0 ≤ sizeAlong (contentSize s ct) a)
    (hfit : sizeAlong (contentSize s ct) a ≤ (ContentRect s).extent a)
    (h0 : 0 ≤ fraction s a) (h1 : fraction s a ≤ 1) :
    (∃ rect rest, renderContent s = ScrollCall.setLocation rect :: rest ∧
      rect.Min.coord a = (ContentRect s).Min.coord a
        - scrollOffset (sizeAlong (contentSize s ct) a) ((ContentRect s).extent a)
            (fraction s a)) ∧
    (ContentRect s).Min.coord a
      = s.widgetRect.Min.coord a + (Point.mk s.padding.Left s.padding.Top).coord a ∧
    scrollOffset (sizeAlong (contentSize s ct) a) ((ContentRect s).extent a) (fraction s a)
      = goRound (roundToFloat64
          (((sizeAlong (contentSize s ct) a - (ContentRect s).extent a : Int) : ℚ)
            * fraction s a)) ∧
    sizeAlong (contentSize s ct) a - (ContentRect s).extent a
      ≤ scrollOffset (sizeAlong (contentSize s ct) a) ((ContentRect s).extent a)
          (fraction s a) ∧
    scrollOffset (sizeAlong (contentSize s ct) a) ((ContentRect s).extent a)
      (fraction s a) ≤ 0 ∧
    (sizeAlong (contentSize s ct) a = (ContentRect s).extent a →
      scrollOffset (sizeAlong (contentSize s ct) a) ((ContentRect s).extent a)
        (fraction s a) = 0) ∧
    (fraction s a = 0 →
      scrollOffset (sizeAlong (contentSize s ct) a) ((ContentRect s).extent a)
        (fraction s a) = 0) ∧
    (fraction s a = 1 →
      scrollOffset (sizeAlong (contentSize s ct) a) ((ContentRect s).extent a)
        (fraction s a) = sizeAlong (contentSize s ct) a - (ContentRect s).extent a) := by
  have hdb := difference_bounds s ct a hrange
  have hb := scrollOffset_bounds (sizeAlong (contentSize s ct) a) ((ContentRect s).extent a)
    (fraction s a) hdb.1 (by omega) h0 h1
  have hloc := contentLocation_coords s ct a hrange hw (by omega) (by omega)
  have hcr := ContentRect_coords s ct hrange
  obtain ⟨rest, hrest⟩ := renderContent_head s ct hc hr hl
  refine ⟨⟨_, rest, hrest, hloc.1⟩, ?_,
    scrollOffset_eq _ _ _ hdb.1 hdb.2, hb.1, hb.2, ?_, ?_, ?_⟩
  · cases a
    · exact hcr.1
    · exact hcr.2.1
  · intro he
    rw [he]
    exact scrollOffset_same _ _
  · intro hf
    rw [hf]
    exact scrollOffset_zero _ _
  · intro hf
    rw [hf]
    exact scrollOffset_one _ _ hdb.1 hdb.2

theorem offset_when_content_fits_witness :
    (∃ rect rest, renderContent nearHalfContent = ScrollCall.setLocation rect :: rest ∧
      rect.Min.X = 0 - (-4)) ∧
    scrollOffset 95 100 (3152519739159347 / 4503599627370496) ≤ 0 := by
  have h := offset_when_content_fits nearHalfContent ⟨true, true, false, some (95, 50)⟩
    Axis.horizontal rfl rfl rfl
    (by
      refine ⟨⟨?_, ?_, ?_, ?_⟩, ⟨?_, ?_, ?_, ?_⟩, ?_⟩
      · exact ⟨by decide, by decide⟩
      · exact ⟨by decide, by decide⟩
      · exact ⟨by decide, by decide⟩
      · exact ⟨by decide, by decide⟩
      · exact ⟨by decide, by decide⟩
      · exact ⟨by decide, by decide⟩
      · exact ⟨by decide, by decide⟩
      · exact ⟨by decide, by decide⟩
      · intro p hp
        cases hp
        exact ⟨⟨by decide, by decide⟩, ⟨by decide, by decide⟩⟩)
    (by decide) (by decide)
    (by norm_num [fraction, nearHalfContent, smallContent])
    (by norm_num [fraction, nearHalfContent, smallContent])
  have hoff : scrollOffset (sizeAlong (contentSize nearHalfContent
      ⟨true, true, false, some (95, 50)⟩) Axis.horizontal)
      ((ContentRect nearHalfContent).extent Axis.horizontal)
      (fraction nearHalfContent Axis.horizontal) = -4 := scrollOffset_near_half
  obtain ⟨rect, rest, hrest, hmin⟩ := h.1
  rw [hoff] at hmin
  exact ⟨⟨rect, rest, hrest, hmin⟩, h.2.2.2.2.1⟩

/-- C7 fails as stated: a 50 by 50 content in a 100 by 100 viewport at the
origin, with both fractions 1, is located at (50, 50)-(100, 100): the offset is
-50 on both axes, not 0; and a content 95 wide in the same viewport, at the
`float64` nearest to 0.7, gets the offset -4. -/
theorem small_content_counterexample :
    contentSize smallContent ⟨true, true, false, none⟩ = (50, 50) ∧
    (ContentRect smallContent).Dx = 100 ∧ (ContentRect smallContent).Dy = 100 ∧
    scrollOffset 50 100 1 = -50 ∧
    renderContent smallContent =
      [ScrollCall.setLocation ⟨⟨50, 50⟩, ⟨100, 100⟩⟩, ScrollCall.render,
        ScrollCall.drawMask 100 100 0 0, ScrollCall.composite] ∧
    scrollOffset 95 100 (3152519739159347 / 4503599627370496) = -4 := by
  have hoff : scrollOffset 50 100 1 = -50 :=
    scrollOffset_one 50 100 (by norm_num) (by norm_num)
  refine ⟨rfl, by decide, by decide, hoff, ?_, scrollOffset_near_half⟩
  have hloc : contentLocation smallContent ⟨true, true, false, none⟩
      = ⟨⟨50, 50⟩, ⟨100, 100⟩⟩ := by
    have hx : scrollOffset (contentSize smallContent ⟨true, true, false, none⟩).1
        (ContentRect smallContent).Dx smallContent.ScrollLeft = -50 := hoff
    have hy : scrollOffset (contentSize smallContent ⟨true, true, false, none⟩).2
        (ContentRect smallContent).Dy smallContent.ScrollTop = -50 := hoff
    unfold contentLocation
    simp only [hx, hy]
    decide
  have hhead : renderContent smallContent =
      [ScrollCall.setLocation (contentLocation smallContent ⟨true, true, false, none⟩),
        ScrollCall.render,
        ScrollCall.drawMask (wrapInt (smallContent.widgetRect.Dx - smallContent.padding.Dx))
          (wrapInt (smallContent.widgetRect.Dy - smallContent.padding.Dy))
          (wrapInt (smallContent.widgetRect.Min.X + smallContent.padding.Left))
          (wrapInt (smallContent.widgetRect.Min.Y + smallContent.padding.Top)),
        ScrollCall.composite] := rfl
  have m1 : wrapInt (smallContent.widgetRect.Dx - smallContent.padding.Dx) = 100 := by decide
  have m2 : wrapInt (smallContent.widgetRect.Dy - smallContent.padding.Dy) = 100 := by decide
  have m3 : wrapInt (smallContent.widgetRect.Min.X + smallContent.padding.Left) = 0 := by
    decide
  have m4 : wrapInt (smallContent.widgetRect.Min.Y + smallContent.padding.Top) = 0 := by
    decide
  rw [hhead, hloc, m1, m2, m3, m4]

/-- C8 (amended): at pixel magnitudes, for a content of size `W ≥ 0` on an axis
and a viewport of size `V < W` on that axis, the first call of `renderContent`
is `SetLocation` with a rectangle that, on that axis, starts at the viewport
start when the fraction of the axis is 0, ends at the viewport end when the
fraction is 1, and at fraction 1/2 starts `(W - V + 1) / 2` before the viewport
start, which is `(W - V) / 2` rounded to the nearest integer (halves upwards);
the axis is either the horizontal one with `ScrollLeft` or the vertical one
with `ScrollTop`. -/
theorem scroll_offset_boundaries (s : ScrollContainer) (ct : Content) (a : Axis)
    (hc : s.content = some ct) (hr : ct.isRenderer = true) (hl : ct.isLocateable = true)
    (hrange : InRange s ct)
    (hw : 0 ≤ sizeAlong (contentSize s ct) a)
    (hlt : (ContentRect s).extent a < sizeAlong (contentSize s ct) a) :
    (∃ rect rest, renderContent (setFraction s a 0) = ScrollCall.setLocation rect :: rest ∧
      rect.Min.coord a = (ContentRect s).Min.coord a) ∧
    (∃ rect rest, renderContent (setFraction s a 1) = ScrollCall.setLocation rect :: rest ∧
      rect.Max.coord a = (ContentRect s).Max.coord a) ∧
    (∃ rect rest, renderContent (setFraction s a (1 / 2))
        = ScrollCall.setLocation rect :: rest ∧
      rect.Min.coord a = (ContentRect s).Min.coord a
        - (sizeAlong (contentSize s ct) a - (ContentRect s).extent a + 1) / 2) ∧
    |2 * ((sizeAlong (contentSize s ct) a - (ContentRect s).extent a + 1) / 2)
      - (sizeAlong (contentSize s ct) a - (ContentRect s).extent a)| ≤ 1 := by
  have hdb := difference_bounds s ct a hrange
  have hoff0 := scrollOffset_zero (sizeAlong (contentSize s ct) a) ((ContentRect s).extent a)
  have hoff1 := scrollOffset_one (sizeAlong (contentSize s ct) a) ((ContentRect s).extent a)
    hdb.1 hdb.2
  have hoffh := scrollOffset_half (sizeAlong (contentSize s ct) a)
    ((ContentRect s).extent a) (by omega) hdb.2
  have hloc : ∀ f,
      -2 ^ 53 ≤ scrollOffset (sizeAlong (contentSize s ct) a) ((ContentRect s).extent a) f →
      scrollOffset (sizeAlong (contentSize s ct) a) ((ContentRect s).extent a) f ≤ 2 ^ 53 →
      (contentLocation (setFraction s a f) ct).Min.coord a = (ContentRect s).Min.coord a
        - scrollOffset (sizeAlong (contentSize s ct) a) ((ContentRect s).extent a) f ∧
      (contentLocation (setFraction s a f) ct).Max.coord a
        = (contentLocation (setFraction s a f) ct).Min.coord a
          + sizeAlong (contentSize s ct) a := by
    intro f ho1 ho2
    have hsf := setFraction_content s a f
    have h := contentLocation_coords (setFraction s a f) ct a
      (setFraction_InRange s ct a f hrange)
    rw [hsf.2.1, hsf.2.2.1, hsf.2.2.2] at h
    exact h hw ho1 ho2
  have hhead : ∀ f, ∃ rest, renderContent (setFraction s a f)
      = ScrollCall.setLocation (contentLocation (setFraction s a f) ct) :: rest :=
    fun f => renderContent_head (setFraction s a f) ct
      ((setFraction_content s a f).1.trans hc) hr hl
  have hext := ContentRect_extent s ct a hrange
  refine ⟨?_, ?_, ?_, ?_⟩
  · obtain ⟨rest, hrest⟩ := hhead 0
    refine ⟨_, rest, hrest, ?_⟩
    have h := (hloc 0 (by omega) (by omega)).1
    rw [hoff0] at h
    omega
  · obtain ⟨rest, hrest⟩ := hhead 1
    refine ⟨_, rest, hrest, ?_⟩
    have h := hloc 1 (by omega) (by omega)
    rw [hoff1] at h
    omega
  · obtain ⟨rest, hrest⟩ := hhead (1 / 2)
    refine ⟨_, rest, hrest, ?_⟩
    have h := (hloc (1 / 2) (by omega) (by omega)).1
    rw [hoffh] at h
    exact h
  · rw [abs_le]
    constructor <;> omega

theorem scroll_offset_boundaries_witness :
    (∃ rect rest, renderContent (setFraction (clampScroll wideContent) Axis.horizontal 0)
        = ScrollCall.setLocation rect :: rest ∧ rect.Min.X = 15) ∧
    (∃ rect rest, renderContent (setFraction (clampScroll wideContent) Axis.horizontal 1)
        = ScrollCall.setLocation rect :: rest ∧ rect.Max.X = 105) ∧
    (∃ rect rest,
      renderContent (setFraction (clampScroll wideContent) Axis.horizontal (1 / 2))
        = ScrollCall.setLocation rect :: rest ∧ rect.Min.X = 15 - 106) := by
  have h := scroll_offset_boundaries (clampScroll wideContent)
    ⟨true, true, true, some (301, 60)⟩ Axis.horizontal rfl rfl rfl
    (by
      refine ⟨⟨?_, ?_, ?_, ?_⟩, ⟨?_, ?_, ?_, ?_⟩, ?_⟩
      · exact ⟨by decide, by decide⟩
      · exact ⟨by decide, by decide⟩
      · exact ⟨by decide, by decide⟩
      · exact ⟨by decide, by decide⟩
      · exact ⟨by decide, by decide⟩
      · exact ⟨by decide, by decide⟩
      · exact ⟨by decide, by decide⟩
      · exact ⟨by decide, by decide⟩
      · intro p hp
        cases hp
        exact ⟨⟨by decide, by decide⟩, ⟨by decide, by decide⟩⟩)
    (by decide) (by decide)
  exact ⟨h.1, h.2.1, h.2.2.1⟩

/-- C8 fails as stated: a content of preferred width `2^53 + 1` in an empty
viewport at the origin with `ScrollLeft` 1 is located from `-2^53` to 1 on the
horizontal axis: `float64(2^53 + 1)` is `2^53`, so the right edge of the
content is one pixel past the right edge 0 of the viewport. -/
theorem huge_content_counterexample :
    contentSize hugeContent ⟨true, true, false, some (9007199254740993, 60)⟩
      = (9007199254740993, 60) ∧
    ContentRect hugeContent = ⟨⟨0, 0⟩, ⟨0, 0⟩⟩ ∧
    hugeContent.ScrollLeft = 1 ∧
    scrollOffset 9007199254740993 0 1 = 9007199254740992 ∧
    renderContent hugeContent =
      [ScrollCall.setLocation ⟨⟨-9007199254740992, 0⟩, ⟨1, 60⟩⟩, ScrollCall.render,
        ScrollCall.drawMask 0 0 0 0, ScrollCall.composite] := by
  refine ⟨rfl, by decide, rfl, scrollOffset_huge, ?_⟩
  have hloc : contentLocation hugeContent ⟨true, true, false, some (9007199254740993, 60)⟩
      = ⟨⟨-9007199254740992, 0⟩, ⟨1, 60⟩⟩ := by
    have hx : scrollOffset
        (contentSize hugeContent ⟨true, true, false, some (9007199254740993, 60)⟩).1
        (ContentRect hugeContent).Dx hugeContent.ScrollLeft = 9007199254740992 :=
      scrollOffset_huge
    have hy : scrollOffset
        (contentSize hugeContent ⟨true, true, false, some (9007199254740993, 60)⟩).2
        (ContentRect hugeContent).Dy hugeContent.ScrollTop = 0 :=
      scrollOffset_zero 60 0
    unfold contentLocation
    simp only [hx, hy]
    decide
  have hhead : renderContent hugeContent =
      [ScrollCall.setLocation
          (contentLocation hugeContent ⟨true, true, false, some (9007199254740993, 60)⟩),
        ScrollCall.render,
        ScrollCall.drawMask (wrapInt (hugeContent.widgetRect.Dx - hugeContent.padding.Dx))
          (wrapInt (hugeContent.widgetRect.Dy - hugeContent.padding.Dy))
          (wrapInt (hugeContent.widgetRect.Min.X + hugeContent.padding.Left))
          (wrapInt (hugeContent.widgetRect.Min.Y + hugeContent.padding.Top)),
        ScrollCall.composite] := rfl
  have m1 : wrapInt (hugeContent.widgetRect.Dx - hugeContent.padding.Dx) = 0 := by decide
  have m2 : wrapInt (hugeContent.widgetRect.Dy - hugeContent.padding.Dy) = 0 := by decide
  have m3 : wrapInt (hugeContent.widgetRect.Min.X + hugeContent.padding.Left) = 0 := by
    decide
  have m4 : wrapInt (hugeContent.widgetRect.Min.Y + hugeContent.padding.Top) = 0 := by
    decide
  rw [hhead, hloc, m1, m2, m3, m4]

end ScrollContainer

end Ebitenui
